import Mathlib

attribute [local semireducible] Rat.add Rat.mul Rat.sub Rat.inv

/-!
# Verification of the invoice red-flag correlation engine

Shallow embedding of the correlation engine of the `gt-poc` repository
(`src/analyzer.py` and `src/red_flags.py`), together with the library
routines those modules call into (`difflib.SequenceMatcher`,
`fuzzywuzzy.fuzz.token_set_ratio`, and the TF-IDF cosine pipeline of
`sklearn`), and proofs settling the specification claims about them.

Conventions of the embedding:
* Python strings are `String`; a value that may be Python `None` is an
  `Option String` (`none` = `None`).
* Python floats are modelled as exact rationals `ℚ`.  All similarity
  scores the claims depend on are exact in this model; the only
  approximation is inside the TF-IDF cosine on inputs whose exact value
  is irrational (see `tfidfCosineCore`), a branch no claim's truth
  depends on.
* A Python exception is an `Except` error; a `try/except` handler is a
  `match` on that `Except`.
-/

/-- Rendering of an optional Python value in an f-string:
`None` renders as the string `"None"`, a string renders as itself
(as in `f"{format_style}"` in `structural_fingerprint`). -/
def pyStr (s : Option String) : String := s.getD "None"

/-- ASCII whitespace, as stripped by Python `str.strip()` / `str.split()`
(the inputs of this code base are ASCII; the unicode cases of Python's
definition are irrelevant here). -/
def isPySpace (c : Char) : Bool :=
  c = ' ' || c = '\t' || c = '\n' || c = '\x0d' || c = '\x0b' || c = '\x0c'

/-- Python `str.strip()` on a character list. -/
def stripChars (l : List Char) : List Char :=
  ((l.dropWhile isPySpace).reverse.dropWhile isPySpace).reverse

/-- Python `str.strip()`. -/
def pyStrip (s : String) : String := ⟨stripChars s.data⟩

/-- Helper for `pySplit`: split a character list on whitespace runs. -/
def splitWsAux : List Char → List Char → List String
  | [], [] => []
  | [], cur => [⟨cur.reverse⟩]
  | c :: rest, cur =>
    if isPySpace c then
      match cur with
      | [] => splitWsAux rest []
      | _ => ⟨cur.reverse⟩ :: splitWsAux rest []
    else splitWsAux rest (c :: cur)

/-- Python `str.split()` with no argument: split on runs of whitespace,
producing no empty tokens. -/
def pySplit (s : String) : List String := splitWsAux s.data []

/-- Python `str.lower()` (ASCII case folding; the data of this code base
is ASCII). -/
def pyLower (s : String) : String := ⟨s.data.map Char.toLower⟩

/-- Lexicographic code-point comparison of character lists. -/
def charListLt : List Char → List Char → Bool
  | [], [] => false
  | [], _ :: _ => true
  | _ :: _, [] => false
  | c :: cs, d :: ds =>
    if c < d then true else if d < c then false else charListLt cs ds

/-- Python string comparison `<`: lexicographic on code points (the
same order as Lean's `String` instance, computed structurally). -/
def strLt (a b : String) : Bool := charListLt a.data b.data

/-- `min` of a nonempty list of strings: `sorted(group)[0]` in Python. -/
def minString : List String → String
  | [] => ""
  | x :: xs => xs.foldl (fun m v => if strLt v m then v else m) x

/-- Insertion into a sorted list, preserving ascending order
(used to model Python `sorted`). -/
def insertAsc (x : String) : List String → List String
  | [] => [x]
  | y :: ys => if strLt y x then y :: insertAsc x ys else x :: y :: ys

/-- Python `sorted` on strings (ascending code-point order). -/
def pySorted (l : List String) : List String := l.foldr insertAsc []

/-- Helper for `pyDedup` carrying the elements already seen. -/
def dedupAux : List String → List String → List String
  | [], _ => []
  | x :: xs, seen =>
    if x ∈ seen then dedupAux xs seen else x :: dedupAux xs (x :: seen)

/-- The distinct elements of a list, first occurrence first: the
content of the Python `set` built from it (all observations made of
these sets — size, membership, sorted rendering — are
order-independent). -/
def pyDedup (l : List String) : List String := dedupAux l []

/-- Last-wins lookup in an association list, modelling a Python dict
built by successive assignments: `m.get(k, d)`. -/
def dictGetD (m : List (String × String)) (k d : String) : String :=
  match m.reverse.find? (fun p => p.1 = k) with
  | some p => p.2
  | none => d

/-- Membership of a key in a Python dict modelled as an association
list (`k in m`). -/
def dictHasKey (m : List (String × Nat)) (k : String) : Bool :=
  m.any (fun p => p.1 = k)

/-- Last-wins lookup returning `Option`, modelling `m.get(k)` /
`m.get(k, None)` on a dict of group indices. -/
def dictGetNat? (m : List (String × Nat)) (k : String) : Option Nat :=
  (m.reverse.find? (fun p => p.1 = k)).map (·.2)

/-- Lookup in an integer-valued dict with a string default, modelling
`table_size.get('rows', '?')` rendered into an f-string. -/
def dictGetIntStr (m : List (String × Int)) (k : String) : String :=
  match m.reverse.find? (fun p => p.1 = k) with
  | some p => toString p.2
  | none => "?"

/-!
## `difflib.SequenceMatcher`

Faithful model of CPython's `difflib.SequenceMatcher(None, a, b)` with
its default `autojunk=True` heuristic, specialised to sequences of
characters.  `layout_similarity` in `src/analyzer.py` and
`fuzz.ratio` inside `fuzzywuzzy` both reduce to this.
-/

namespace SeqMatcher

/-- Indices (ascending) at which character `c` occurs in `b`:
the entry `b2j[c]` before the autojunk deletion. -/
def occurrences (b : List Char) (c : Char) : List Nat :=
  (b.enum.filter (fun p => p.2 = c)).map (·.1)

/-- The `autojunk` heuristic: for `len(b) >= 200`, characters occurring
more than `len(b) // 100 + 1` times are "popular" and removed from
`b2j` (they form the junk set `bpopular`). -/
def isPopular (b : List Char) (c : Char) : Bool :=
  b.length ≥ 200 && b.count c > b.length / 100 + 1

/-- `b2j` lookup after autojunk deletion. -/
def b2j (b : List Char) (c : Char) : List Nat :=
  if isPopular b c then [] else occurrences b c

/-- Lookup in the `j2len` dict of `find_longest_match`
(`j2len.get(j, 0)`). -/
def j2lenGet (m : List (Nat × Nat)) (j : Nat) : Nat :=
  match m.find? (fun p => p.1 = j) with
  | some p => p.2
  | none => 0

/-- State of the best block in `find_longest_match`. -/
structure Best where
  besti : Nat
  bestj : Nat
  bestsize : Nat
deriving DecidableEq, Repr

/-- The inner `for j in b2j.get(a[i], [])` loop of `find_longest_match`:
walks the ascending index list, skipping `j < blo`, breaking at
`j >= bhi`, building the new `j2len` row and updating the best block.
`k = j2len.get(j-1, 0) + 1` reads the previous row; Python's lookup of
`-1` when `j = 0` returns the default `0`. -/
def innerLoop (i blo bhi : Nat) (prev : List (Nat × Nat)) :
    List Nat → Best → List (Nat × Nat) → Best × List (Nat × Nat)
  | [], st, new => (st, new)
  | j :: js, st, new =>
    if j < blo then innerLoop i blo bhi prev js st new
    else if bhi ≤ j then (st, new)
    else
      let k := (if j = 0 then 0 else j2lenGet prev (j - 1)) + 1
      let new' := new ++ [(j, k)]
      let st' := if st.bestsize < k then ⟨i + 1 - k, j + 1 - k, k⟩ else st
      innerLoop i blo bhi prev js st' new'

/-- The outer `for i in range(alo, ahi)` loop of `find_longest_match`. -/
def rowLoop (a b : List Char) (blo bhi : Nat) :
    List Nat → Best × List (Nat × Nat) → Best
  | [], (st, _) => st
  | i :: is, (st, prev) =>
    let step := innerLoop i blo bhi prev (b2j b (a.getD i (Char.ofNat 0))) st []
    rowLoop a b blo bhi is step

/-- The backward extension `while` loops of `find_longest_match`
(`wantJunk = false` for the non-junk pass, `true` for the junk pass):
structural recursion on `besti`. -/
def extendLower (a b : List Char) (alo blo : Nat) (wantJunk : Bool) :
    Nat → Nat → Nat → Nat × Nat × Nat
  | 0, bj, bs => (0, bj, bs)
  | bi + 1, bj, bs =>
    if alo < bi + 1 && blo < bj &&
        isPopular b (b.getD (bj - 1) (Char.ofNat 0)) = wantJunk &&
        a.getD bi (Char.ofNat 0) = b.getD (bj - 1) (Char.ofNat 0) then
      extendLower a b alo blo wantJunk bi (bj - 1) (bs + 1)
    else (bi + 1, bj, bs)

/-- The forward extension `while` loops of `find_longest_match`,
fuel-driven (the fuel bounds the number of iterations; `ahi` is always
a sufficient bound since each iteration requires `besti+bestsize < ahi`). -/
def extendUpper (a b : List Char) (ahi bhi : Nat) (wantJunk : Bool) (bi bj : Nat) :
    Nat → Nat → Nat
  | 0, bs => bs
  | fuel + 1, bs =>
    if bi + bs < ahi && bj + bs < bhi &&
        isPopular b (b.getD (bj + bs) (Char.ofNat 0)) = wantJunk &&
        a.getD (bi + bs) (Char.ofNat 0) = b.getD (bj + bs) (Char.ofNat 0) then
      extendUpper a b ahi bhi wantJunk bi bj fuel (bs + 1)
    else bs

/-- `find_longest_match(alo, ahi, blo, bhi)`: the dynamic-programming
loop followed by the four extension loops (non-junk backward, non-junk
forward, junk backward, junk forward). -/
def findLongestMatch (a b : List Char) (alo ahi blo bhi : Nat) : Nat × Nat × Nat :=
  let st := rowLoop a b blo bhi (List.range' alo (ahi - alo)) (⟨alo, blo, 0⟩, [])
  let r1 := extendLower a b alo blo false st.besti st.bestj st.bestsize
  let s2 := extendUpper a b ahi bhi false r1.1 r1.2.1 ahi r1.2.2
  let r3 := extendLower a b alo blo true r1.1 r1.2.1 s2
  let s4 := extendUpper a b ahi bhi true r3.1 r3.2.1 ahi r3.2.2
  (r3.1, r3.2.1, s4)

/-- Total size of the matching blocks found by `get_matching_blocks`
inside the rectangle `[alo,ahi) × [blo,bhi)`: recursive splitting
around the longest match.  The fuel only bounds the recursion depth;
`matchTotal` supplies enough of it. -/
def matchesIn (a b : List Char) : Nat → Nat → Nat → Nat → Nat → Nat
  | 0, _, _, _, _ => 0
  | fuel + 1, alo, ahi, blo, bhi =>
    let m := findLongestMatch a b alo ahi blo bhi
    if m.2.2 = 0 then 0
    else
      matchesIn a b fuel alo m.1 blo m.2.1 + m.2.2 +
        matchesIn a b fuel (m.1 + m.2.2) ahi (m.2.1 + m.2.2) bhi

/-- `sum(size for _, _, size in get_matching_blocks())`. -/
def matchTotal (a b : List Char) : Nat :=
  matchesIn a b (a.length + b.length + 1) 0 a.length 0 b.length

/-- `SequenceMatcher(None, a, b).ratio()` as an exact rational:
`2 * M / T` where `M` is the total matched size and `T` the total
length; `1` when both sequences are empty (difflib's
`_calculate_ratio`). -/
def ratioQ (a b : List Char) : ℚ :=
  if a.length + b.length = 0 then 1
  else (2 * matchTotal a b : ℚ) / (a.length + b.length : ℚ)

end SeqMatcher

/-!
## `fuzzywuzzy.fuzz.token_set_ratio`

Model of fuzzywuzzy 0.18's `fuzz.token_set_ratio(s1, s2)` with its
defaults (`force_ascii=True`, `full_process=True`), used by
`group_similar_vendors` in `src/red_flags.py`.
-/

namespace Fuzz

/-- Round-half-to-even, Python's `round` (inside fuzzywuzzy's
`utils.intr`). -/
def roundHalfEven (q : ℚ) : ℤ :=
  let f := ⌊q⌋
  let r := q - (f : ℚ)
  if r < 1 / 2 then f
  else if 1 / 2 < r then f + 1
  else if f % 2 = 0 then f else f + 1

/-- `fuzz.ratio(s1, s2)`: the `SequenceMatcher` ratio scaled to 0–100
and rounded. -/
def fuzzRatio (s1 s2 : String) : ℤ :=
  roundHalfEven (100 * SeqMatcher.ratioQ s1.data s2.data)

/-- A Python `\w` word character on the ASCII data of this code base:
alphanumeric or underscore. -/
def isWordChar (c : Char) : Bool := c.isAlphanum || c = '_'

/-- fuzzywuzzy's `utils.full_process`: drop non-ASCII characters
(`force_ascii`), replace every non-`\w` character with a space, lower
case, strip. -/
def fullProcess (s : String) : String :=
  pyStrip ⟨(s.data.filter (fun c => c.toNat < 128)).map
    (fun c => if isWordChar c then c.toLower else ' ')⟩

/-- `" ".join(ws)`. -/
def joinSpace (ws : List String) : String := " ".intercalate ws

/-- `fuzz.token_set_ratio(s1, s2)`: split both processed strings into
token sets, and take the max of the three `fuzz.ratio` comparisons of
the sorted intersection against the two sorted combinations. -/
def tokenSetRatio (s1 s2 : String) : ℤ :=
  let p1 := fullProcess s1
  let p2 := fullProcess s2
  if p1.length = 0 then 0
  else if p2.length = 0 then 0
  else
    let t1 := pyDedup (pySplit p1)
    let t2 := pyDedup (pySplit p2)
    let inter := t1.filter (· ∈ t2)
    let d12 := t1.filter (· ∉ t2)
    let d21 := t2.filter (· ∉ t1)
    let sortedSect := joinSpace (pySorted inter)
    let combined12 := pyStrip (sortedSect ++ " " ++ joinSpace (pySorted d12))
    let combined21 := pyStrip (sortedSect ++ " " ++ joinSpace (pySorted d21))
    let sect := pyStrip sortedSect
    max (fuzzRatio sect combined12) (max (fuzzRatio sect combined21)
      (fuzzRatio combined12 combined21))

end Fuzz

/-!
## `group_similar_vendors` (`src/red_flags.py`, lines 7–28)

Vendor canonicalization: greedy first-match clustering of vendor name
strings.  Python's groups are `set`s; they are modelled as
duplicate-free lists (insertion order), which is adequate because the
only observations made of a group are `any` over its members and
`sorted(group)[0]`, both order-insensitive.
-/

/-- `group.add(v)` on a set modelled as a duplicate-free list. -/
def setAdd (g : List String) (v : String) : List String :=
  if v ∈ g then g else g ++ [v]

/-- The inner `for group in groups` scan with its `break`: returns the
updated group list when some group matches, `none` when no group does. -/
def gsvScan (θ : ℤ) (v : String) : List (List String) → Option (List (List String))
  | [] => none
  | g :: gs =>
    if g.any (fun m => θ ≤ Fuzz.tokenSetRatio v m) then some (setAdd g v :: gs)
    else (gsvScan θ v gs).map (g :: ·)

/-- One iteration of the outer loop of `group_similar_vendors`: the
incoming name joins the first matching group, otherwise opens a new
singleton group. -/
def gsvStep (θ : ℤ) (groups : List (List String)) (v : String) : List (List String) :=
  (gsvScan θ v groups).getD (groups ++ [[v]])

/-- The groups after processing all names in input order. -/
def gsvGroups (names : List String) (θ : ℤ) : List (List String) :=
  names.foldl (gsvStep θ) []

/-- `group_similar_vendors(vendor_names, threshold=90)`: the
vendor-to-canonical dict, built group by group with the
lexicographically smallest member as canonical; modelled as the
assignment sequence (last assignment wins on lookup, as in a dict). -/
def groupSimilarVendors (names : List String) (θ : ℤ) : List (String × String) :=
  (gsvGroups names θ).foldl (fun acc g => acc ++ g.map (fun v => (v, minString g))) []

/-!
## TF-IDF cosine similarity (`sklearn`)

`are_layouts_similar` compares header texts with
`TfidfVectorizer(lowercase=True, stop_words='english')` followed by
`cosine_similarity`.  With two documents, smooth idf gives weight
`ln(3/3) + 1 = 1` to every term occurring in both documents and
`w = ln(3/2) + 1` to every term unique to one document.  The cosine is
therefore `dot / sqrt((p1 + q1*w²) * (p2 + q2*w²))` where `dot` and the
`p`/`q` norm components are rational.  This model returns the exact
value whenever it is rational (in particular `1` for identical token
multisets, `0` whenever the dot product vanishes, and the zero-vector
convention of `sklearn.preprocessing.normalize`); on inputs whose exact
cosine is irrational it substitutes a rational approximation of the
square root (`w² ≈ 1.9753322`), mirroring the source's floating-point
approximation of the same irrational value.
-/

namespace Tfidf

/-- Helper for `rawTokens`: collect the maximal runs of characters
satisfying `keep`. -/
def runsAux (keep : Char → Bool) : List Char → List Char → List String
  | [], [] => []
  | [], cur => [⟨cur.reverse⟩]
  | c :: rest, cur =>
    if keep c then runsAux keep rest (c :: cur)
    else
      match cur with
      | [] => runsAux keep rest []
      | _ => ⟨cur.reverse⟩ :: runsAux keep rest []

/-- The token pattern `(?u)\b\w\w+\b` of `CountVectorizer`: maximal
runs of word characters, keeping only runs of length ≥ 2 (ASCII data). -/
def rawTokens (text : String) : List String :=
  (runsAux Fuzz.isWordChar (pyLower text).data []).filter (fun t => 2 ≤ t.length)

/-- `sklearn.feature_extraction.text.ENGLISH_STOP_WORDS`. -/
def englishStopWords : List String :=
  ["a", "about", "above", "across", "after", "afterwards", "again", "against",
   "all", "almost", "alone", "along", "already", "also", "although", "always",
   "am", "among", "amongst", "amoungst", "amount", "an", "and", "another",
   "any", "anyhow", "anyone", "anything", "anyway", "anywhere", "are",
   "around", "as", "at", "back", "be", "became", "because", "become",
   "becomes", "becoming", "been", "before", "beforehand", "behind", "being",
   "below", "beside", "besides", "between", "beyond", "bill", "both",
   "bottom", "but", "by", "call", "can", "cannot", "cant", "co", "con",
   "could", "couldnt", "cry", "de", "describe", "detail", "do", "done",
   "down", "due", "during", "each", "eg", "eight", "either", "eleven",
   "else", "elsewhere", "empty", "enough", "etc", "even", "ever", "every",
   "everyone", "everything", "everywhere", "except", "few", "fifteen",
   "fifty", "fill", "find", "fire", "first", "five", "for", "former",
   "formerly", "forty", "found", "four", "from", "front", "full", "further",
   "get", "give", "go", "had", "has", "hasnt", "have", "he", "hence", "her",
   "here", "hereafter", "hereby", "herein", "hereupon", "hers", "herself",
   "him", "himself", "his", "how", "however", "hundred", "i", "ie", "if",
   "in", "inc", "indeed", "interest", "into", "is", "it", "its", "itself",
   "keep", "last", "latter", "latterly", "least", "less", "ltd", "made",
   "many", "may", "me", "meanwhile", "might", "mill", "mine", "more",
   "moreover", "most", "mostly", "move", "much", "must", "my", "myself",
   "name", "namely", "neither", "never", "nevertheless", "next", "nine",
   "no", "nobody", "none", "noone", "nor", "not", "nothing", "now",
   "nowhere", "of", "off", "often", "on", "once", "one", "only", "onto",
   "or", "other", "others", "otherwise", "our", "ours", "ourselves", "out",
   "over", "own", "part", "per", "perhaps", "please", "put", "rather", "re",
   "same", "see", "seem", "seemed", "seeming", "seems", "serious", "several",
   "she", "should", "show", "side", "since", "sincere", "six", "sixty", "so",
   "some", "somehow", "someone", "something", "sometime", "sometimes",
   "somewhere", "still", "such", "system", "take", "ten", "than", "that",
   "the", "their", "them", "themselves", "then", "thence", "there",
   "thereafter", "thereby", "therefore", "therein", "thereupon", "these",
   "they", "thick", "thin", "third", "this", "those", "though", "three",
   "through", "throughout", "thru", "thus", "to", "together", "too", "top",
   "toward", "towards", "twelve", "twenty", "two", "un", "under", "until",
   "up", "upon", "us", "very", "via", "was", "we", "well", "were", "what",
   "whatever", "when", "whence", "whenever", "where", "whereafter",
   "whereas", "whereby", "wherein", "whereupon", "wherever", "whether",
   "which", "while", "whither", "who", "whoever", "whole", "whom", "whose",
   "why", "will", "with", "within", "without", "would", "yet", "you",
   "your", "yours", "yourself", "yourselves"]

/-- Tokenization pipeline of the vectorizer: lowercase, extract tokens,
drop stop words. -/
def tokens (text : String) : List String :=
  (rawTokens text).filter (fun t => t ∉ englishStopWords)

/-- Integer square root, computed by a structural linear scan so that
concrete instances reduce inside the kernel; it is only ever evaluated
on small numbers. -/
def natSqrtLin (n : Nat) : Nat :=
  ((List.range (n + 1)).filter (fun k => k * k ≤ n)).length - 1

/-- Exact square root of a rational when it exists (`q` is in lowest
terms, so it is a square iff numerator and denominator are). -/
def ratSqrt? (q : ℚ) : Option ℚ :=
  let sn := natSqrtLin q.num.toNat
  let sd := natSqrtLin q.den
  if 0 ≤ q.num && sn * sn = q.num.toNat && sd * sd = q.den then
    some ((sn : ℚ) / (sd : ℚ))
  else none

/-- Rational approximation of a (generally irrational) square root,
used only where the exact cosine is irrational. -/
def approxSqrt (q : ℚ) : ℚ :=
  (natSqrtLin (⌊q * 10 ^ 12⌋.toNat : ℕ) : ℚ) / 10 ^ 6

/-- Rational approximation of `(ln(3/2) + 1)²`, the squared idf weight
of a term unique to one of the two documents. -/
def w2Approx : ℚ := 19753322 / 10 ^ 7

/-- The cosine of the two tf-idf vectors (see the section comment);
`0` when the dot product vanishes (including the zero-vector case),
exact whenever the Euclidean norms are rational. -/
def cosineCore (toks1 toks2 : List String) : ℚ :=
  let V := (toks1 ++ toks2).toFinset
  let c1 : String → ℚ := fun t => (toks1.count t : ℚ)
  let c2 : String → ℚ := fun t => (toks2.count t : ℚ)
  let dot := V.sum (fun t => c1 t * c2 t)
  let p1 := V.sum (fun t => if c2 t ≠ 0 then c1 t ^ 2 else 0)
  let q1 := V.sum (fun t => if c2 t = 0 then c1 t ^ 2 else 0)
  let p2 := V.sum (fun t => if c1 t ≠ 0 then c2 t ^ 2 else 0)
  let q2 := V.sum (fun t => if c1 t = 0 then c2 t ^ 2 else 0)
  if dot = 0 then 0
  else
    let D := (p1 + q1 * w2Approx) * (p2 + q2 * w2Approx)
    match ratSqrt? D with
    | some s => dot / s
    | none => dot / approxSqrt D

/-- `TfidfVectorizer(...).fit_transform([text1, text2])` followed by
`cosine_similarity`: raises `ValueError` ("empty vocabulary") when no
token of either document survives the pipeline, which the caller's
inner `except` turns into the fallback comparison. -/
def similarity (text1 text2 : String) : Except Unit ℚ :=
  let toks1 := tokens text1
  let toks2 := tokens text2
  if toks1.isEmpty && toks2.isEmpty then .error ()
  else .ok (cosineCore toks1 toks2)

end Tfidf

/-!
## `src/analyzer.py`
-/

/-- `structural_fingerprint(headers, format_style, table_size,
handwritten_or_typed)` (lines 9–25): the four-token signature string.
`format_style or "unknown"` and `handwritten_or_typed or "unknown"`
treat `None` and `""` alike; the leading f-string token renders
`format_style` verbatim (`None` as `"None"`). -/
def structuralFingerprint (headers : List String) (formatStyle : Option String)
    (tableSize : Option (List (String × Int))) (handwrittenOrTyped : Option String) :
    String :=
  let layoutString :=
    if headers.isEmpty then
      match formatStyle with
      | some s => if s = "" then "unknown" else s
      | none => "unknown"
    else " | ".intercalate (headers.map pyLower)
  let sizeString :=
    match tableSize with
    | some d => dictGetIntStr d "rows" ++ "x" ++ dictGetIntStr d "columns"
    | none => "?x?"
  let hwString :=
    match handwrittenOrTyped with
    | some s => if s = "" then "unknown" else s
    | none => "unknown"
  pyStr formatStyle ++ "::" ++ layoutString ++ "::" ++ sizeString ++ "::" ++ hwString

/-- `layout_similarity(f1, f2)` (lines 27–33): the `SequenceMatcher`
ratio of the two fingerprint strings. -/
def layoutSimilarity (f1 f2 : String) : ℚ :=
  SeqMatcher.ratioQ f1.data f2.data

/-- Truthiness of an optional dict: `None` and `{}` are falsy,
a non-empty dict is truthy. -/
def dictTruthy : Option (List (String × Int)) → Bool
  | some l => !l.isEmpty
  | none => false

/-- Jaccard word overlap, the fallback branch of `are_layouts_similar`
(lines 79–87) when the vectorizer raises. -/
def fallbackSim (text1 text2 : String) : ℚ :=
  let w1 := (pySplit (pyLower text1)).toFinset
  let w2 := (pySplit (pyLower text2)).toFinset
  if (w1 ∪ w2).card = 0 then 0
  else ((w1 ∩ w2).card : ℚ) / ((w1 ∪ w2).card : ℚ)

/-- `are_layouts_similar(...)` (lines 35–91).  The third test models
lines 52–56: when both table sizes are truthy dicts the arithmetic
`abs(table_size1 - table_size2)` is a dict subtraction, which raises
`TypeError`; the outer `except` (lines 89–91) catches it and returns
`(False, 0.0)`.  Scan types and handwriting categories may be `None`
at the same-vendor call site (`other.get(...)` without `or ""`), hence
the `Option String` parameters. -/
def areLayoutsSimilar (headers1 headers2 : List String)
    (scanned1 scanned2 : Option String)
    (tableSize1 tableSize2 : Option (List (String × Int)))
    (handwritten1 handwritten2 : Option String) : Bool × ℚ :=
  if scanned1 ≠ scanned2 then (false, 0)
  else if handwritten1 ≠ handwritten2 then (false, 0)
  else if dictTruthy tableSize1 && dictTruthy tableSize2 then (false, 0)
  else if headers1.isEmpty || headers2.isEmpty then (false, 0)
  else
    let text1 := " ".intercalate headers1
    let text2 := " ".intercalate headers2
    match Tfidf.similarity text1 text2 with
    | .ok sim => (decide ((7 : ℚ) / 10 < sim), sim)
    | .error _ =>
      let sim := fallbackSim text1 text2
      (decide ((1 : ℚ) / 2 < sim), sim)

/-!
## `src/red_flags.py`: records and format groups

An invoice record is one of the dicts built in `app.py` (lines
146–157): the ten extraction keys are always physically present, with
`None` possible where the LLM returned `null`; the four annotation keys
(`flag_type`, `flag_reason`, `canonical_vendor`, `format_group_id`) are
absent (`none`) until `detect_red_flags` assigns them in place.
`file_name` is `Option String` so that the `KeyError` raised by the
subscript `inv['file_name']` on a record lacking that key can be
modelled.  Python compares dicts by value (`other == inv` in the
same-vendor loop), which structure equality mirrors. -/
structure Rec where
  file_name : Option String
  vendor_name : Option String
  phone_numbers : List String
  email_addresses : List String
  gst_or_pan : Option String
  table_headers : List String
  table_row_data : List (List String)
  table_size : Option (List (String × Int))
  scanned_or_typed : Option String
  handwritten_or_typed : Option String
  flag_type : Option String := none
  flag_reason : Option String := none
  canonical_vendor : Option String := none
  format_group_id : Option (Option Nat) := none
deriving DecidableEq, Repr

instance : Inhabited Rec :=
  ⟨⟨none, none, [], [], none, [], [], none, none, none, none, none, none, none⟩⟩

/-- `(inv.get("vendor_name") or "").strip()`. -/
def vendorOf (inv : Rec) : String := pyStrip (inv.vendor_name.getD "")

/-- Canonical vendor of a record under a vendor-to-canonical dict:
`vendor_to_canonical.get(vendor, vendor)`. -/
def canonicalOf (vmap : List (String × String)) (inv : Rec) : String :=
  dictGetD vmap (vendorOf inv) (vendorOf inv)

/-- `(inv.get("scanned_or_typed") or "")`. -/
def scannedNorm (inv : Rec) : String := inv.scanned_or_typed.getD ""

/-- `(inv.get("handwritten_or_typed") or "")`. -/
def hwNorm (inv : Rec) : String := inv.handwritten_or_typed.getD ""

/-- The inner `for j, inv2 in enumerate(invoices)` loop of
`find_similar_format_groups` (lines 53–76): grow the current group,
marking joined indices processed as the scan proceeds. -/
def fsfgInner (invs : List Rec) (vmap : List (String × String)) (i : Nat) (inv1 : Rec) :
    List Nat → List Rec × List Nat → List Rec × List Nat
  | [], st => st
  | j :: js, (grp, proc) =>
    if j ∈ proc || j = i then fsfgInner invs vmap i inv1 js (grp, proc)
    else
      let inv2 := invs.getD j default
      if canonicalOf vmap inv1 ≠ canonicalOf vmap inv2 then
        let sim := (areLayoutsSimilar inv1.table_headers inv2.table_headers
          (some (scannedNorm inv1)) (some (scannedNorm inv2))
          inv1.table_size inv2.table_size
          (some (hwNorm inv1)) (some (hwNorm inv2))).2
        if (9 : ℚ) / 10 < sim && scannedNorm inv1 = scannedNorm inv2 &&
            hwNorm inv1 = hwNorm inv2 then
          fsfgInner invs vmap i inv1 js (grp ++ [inv2], proc ++ [j])
        else fsfgInner invs vmap i inv1 js (grp, proc)
      else fsfgInner invs vmap i inv1 js (grp, proc)

/-- The outer `for i, inv1 in enumerate(invoices)` loop of
`find_similar_format_groups` (lines 39–79): open a candidate group at
each unprocessed index and keep it only when it gained a second
member. -/
def fsfgOuter (invs : List Rec) (vmap : List (String × String)) :
    List Nat → List Nat → List (List Rec) → List (List Rec)
  | [], _, acc => acc
  | i :: is, proc, acc =>
    if i ∈ proc then fsfgOuter invs vmap is proc acc
    else
      let inv1 := invs.getD i default
      let st := fsfgInner invs vmap i inv1 (List.range invs.length)
        ([inv1], proc ++ [i])
      if 1 < st.1.length then fsfgOuter invs vmap is st.2 (acc ++ [st.1])
      else fsfgOuter invs vmap is st.2 acc

/-- `find_similar_format_groups(invoices, vendor_to_canonical)`
(lines 31–81). -/
def findSimilarFormatGroups (invs : List Rec) (vmap : List (String × String)) :
    List (List Rec) :=
  fsfgOuter invs vmap (List.range invs.length) [] []

/-!
## `detect_red_flags` (`src/red_flags.py`, lines 84–180)

The function mutates each input dict in place (lines 174–177) and
appends the same object to the output list (line 178), so when record
`k` of the batch is classified, records `0..k-1` already carry their
annotation keys; the same-vendor rule observes this through
`vendor_map`, whose lists alias the input dicts (relevant to the dict
equality `other == inv` of line 161).  The loop below therefore
threads the annotated prefix (`acc`, which is simultaneously the
`flagged` output list and the current state of the already-processed
inputs) through the classification of each record. -/

/-- The four flag strings of `detect_red_flags`. -/
def greenFlag : String := "✅ Green Flag"

/-- `flag_type` of rule 1. -/
def sharedContactFlag : String := "🚩 Shared Contact Info"

/-- `flag_type` of rule 2. -/
def sameFormatFlag : String := "🚩 Same Format, Different Vendor"

/-- `flag_type` of rule 3. -/
def diffFormatFlag : String := "🚩 Different Format, Same Vendor"

/-- `contact_map[c]` after the accumulation loop of lines 105–114: one
occurrence of the owning record's canonical vendor per occurrence of
the contact among its phones and e-mails, in batch order. -/
def contactVendors (invs : List Rec) (vmap : List (String × String)) (c : String) :
    List String :=
  invs.flatMap (fun inv =>
    ((inv.phone_numbers ++ inv.email_addresses).filter (· = c)).map
      (fun _ => canonicalOf vmap inv))

/-- Rendering of a Python set of strings into an f-string.  Python's
iteration order over a set is unspecified (it depends on string
hashing); the model renders the elements in sorted order, one fixed
possibility. -/
def pySetRepr (l : List String) : String :=
  let q := String.mk [Char.ofNat 39]
  "\x7b" ++ ", ".intercalate (l.map (fun s => q ++ s ++ q)) ++ "\x7d"

/-- The shared-contact loop of lines 141–146: first contact of
`phones + emails` whose canonical-vendor set has more than one element
and an element other than this record's canonical vendor; returns the
contact and the distinct vendors (first-occurrence order). -/
def rule1Find (invs : List Rec) (vmap : List (String × String)) (cv : String) :
    List String → Option (String × List String)
  | [] => none
  | c :: cs =>
    let vs := pyDedup (contactVendors invs vmap c)
    if 1 < vs.length && vs.any (· ≠ cv) then some (c, vs)
    else rule1Find invs vmap cv cs

/-- `f"{sim:.2f}"` on a nonnegative rational: round half-to-even at two
decimals and render (the source formats the corresponding float). -/
def formatQ2 (q : ℚ) : String :=
  let n := (Fuzz.roundHalfEven (q * 100)).toNat
  toString (n / 100) ++ "." ++ (if n % 100 < 10 then "0" else "") ++ toString (n % 100)

/-- The other-vendor list of line 153,
`[doc['vendor_name'] for doc in group if doc['file_name'] != inv['file_name']]`,
joined at line 155: a missing `file_name` key raises `KeyError`, and a
`None` vendor name makes the `", ".join` of line 155 raise
`TypeError`. -/
def otherVendorsOf (fn : String) : List Rec → Except String (List String)
  | [] => .ok []
  | d :: ds =>
    match d.file_name with
    | none => .error "KeyError: file_name"
    | some dfn =>
      if dfn = fn then otherVendorsOf fn ds
      else
        match d.vendor_name with
        | none => .error "TypeError: sequence item: expected str instance"
        | some v => (otherVendorsOf fn ds).map (v :: ·)

/-- The same-vendor loop of lines 160–172: scan `vendor_map[cv]` in
order, skip records equal (as dicts) to this one, and return the
similarity of the first comparison that disqualifies (score below 0.4,
or differing scan type against the raw field, or differing normalised
handwriting category). -/
def rule3Scan (inv : Rec) : List Rec → Option ℚ
  | [] => none
  | other :: rest =>
    if other = inv then rule3Scan inv rest
    else
      let sim := (areLayoutsSimilar inv.table_headers other.table_headers
        (some (scannedNorm inv)) other.scanned_or_typed
        inv.table_size other.table_size
        (some (hwNorm inv)) other.handwritten_or_typed).2
      if sim < (2 : ℚ) / 5 || some (scannedNorm inv) ≠ other.scanned_or_typed ||
          hwNorm inv ≠ hwNorm other then some sim
      else rule3Scan inv rest

/-- The per-document dictionary assignments of lines 122–125 for one
group: `doc_to_format_group[doc['file_name']] = group_idx`. -/
def dtfgDocs (idx : Nat) : List Rec → List (String × Nat) → Except String (List (String × Nat))
  | [], acc => .ok acc
  | d :: ds, acc =>
    match d.file_name with
    | none => .error "KeyError: file_name"
    | some fn => dtfgDocs idx ds (acc ++ [(fn, idx)])

/-- `doc_to_format_group` built over all groups (lines 122–125). -/
def dtfgBuild : List (Nat × List Rec) → List (String × Nat) → Except String (List (String × Nat))
  | [], acc => .ok acc
  | (idx, g) :: gs, acc =>
    match dtfgDocs idx g acc with
    | .error e => .error e
    | .ok acc' => dtfgBuild gs acc'

/-- Classification of one record (lines 127–172): the four rules in
their fixed order, first match wins.  `cur` is the current state of
the whole batch (annotated prefix and untouched rest), which is what
`vendor_map` aliases when this record is reached. -/
def classify (invs : List Rec) (vmap : List (String × String))
    (groups : List (List Rec)) (dtfg : List (String × Nat))
    (cur : List Rec) (inv : Rec) : Except String (String × String) :=
  let cv := canonicalOf vmap inv
  match inv.file_name with
  | none => .error "KeyError: file_name"
  | some fn =>
    match rule1Find invs vmap cv (inv.phone_numbers ++ inv.email_addresses) with
    | some cvs =>
      .ok (sharedContactFlag,
        "Contact " ++ cvs.1 ++ " used by multiple vendors: " ++ pySetRepr (pySorted cvs.2))
    | none =>
      if dictHasKey dtfg fn then
        let idx := (dictGetNat? dtfg fn).getD 0
        match otherVendorsOf fn (groups.getD idx []) with
        | .error e => .error e
        | .ok ovs =>
          .ok (sameFormatFlag,
            "Part of format group with vendors: " ++ ", ".intercalate ovs ++
              " (group_id=" ++ toString idx ++ ")")
      else
        match rule3Scan inv (cur.filter (fun r => canonicalOf vmap r = cv)) with
        | some sim =>
          .ok (diffFormatFlag,
            "Other invoice for " ++ vendorOf inv ++
              " has different format/layout (similarity=" ++ formatQ2 sim ++ ")")
        | none => .ok (greenFlag, "No issues detected.")

/-- The annotation of lines 174–177, applied in place to the input
record. -/
def annotate (vmap : List (String × String)) (dtfg : List (String × Nat))
    (inv : Rec) (ft fr : String) : Rec :=
  { inv with flag_type := some ft, flag_reason := some fr,
             canonical_vendor := some (canonicalOf vmap inv),
             format_group_id := some (dictGetNat? dtfg (inv.file_name.getD "")) }

/-- The main `for inv in invoices` loop of lines 127–178: classify,
annotate in place, append the (aliased) record to `flagged`. -/
def detectLoop (invs : List Rec) (vmap : List (String × String))
    (groups : List (List Rec)) (dtfg : List (String × Nat)) :
    List Rec → List Rec → Except String (List Rec)
  | acc, [] => .ok acc
  | acc, inv :: rest =>
    match classify invs vmap groups dtfg (acc ++ inv :: rest) inv with
    | .error e => .error e
    | .ok ftr => detectLoop invs vmap groups dtfg
        (acc ++ [annotate vmap dtfg inv ftr.1 ftr.2]) rest

/-- `detect_red_flags(invoices)` (lines 84–180). -/
def detectRedFlags (invs : List Rec) : Except String (List Rec) :=
  let vmap := groupSimilarVendors (invs.map vendorOf) 90
  let groups := findSimilarFormatGroups invs vmap
  match dtfgBuild groups.enum [] with
  | .error e => .error e
  | .ok dtfg => detectLoop invs vmap groups dtfg [] invs

/-!
## Concrete batches used by the claim proofs
-/

/-- A minimal record with every extraction key present and empty. -/
def baseRec : Rec where
  file_name := some "f.pdf"
  vendor_name := some ""
  phone_numbers := []
  email_addresses := []
  gst_or_pan := some ""
  table_headers := []
  table_row_data := []
  table_size := none
  scanned_or_typed := some ""
  handwritten_or_typed := some ""

/-- The `2x3` table size of Scenario 2, the dict `{"rows": 2, "columns": 3}`. -/
def size2x3 : Option (List (String × Int)) := some [("rows", 2), ("columns", 3)]

/-- Scenario 2, record 1: vendor `"aa"`. -/
def scn2a : Rec :=
  { baseRec with
    file_name := some "f1.pdf", vendor_name := some "aa",
    table_headers := ["Item", "Qty", "Price"], table_size := size2x3,
    scanned_or_typed := some "scanned", handwritten_or_typed := some "typed" }

/-- Scenario 2, record 2: vendor `"bb"`. -/
def scn2b : Rec :=
  { scn2a with file_name := some "f2.pdf", vendor_name := some "bb" }

/-- Scenario 2, record 3: vendor `"cc"`. -/
def scn2c : Rec :=
  { scn2a with file_name := some "f3.pdf", vendor_name := some "cc" }

/-- The Scenario 2 batch: three canonical-distinct vendors, identical
headers `["Item","Qty","Price"]`, identical table size `2x3`, identical
scan and handwriting categories. -/
def scn2Batch : List Rec := [scn2a, scn2b, scn2c]

/-- A record of vendor `"A"` with headers and no table size (the table
sizes must be falsy for the TF-IDF comparison of `are_layouts_similar`
to be reached at all). -/
def dupA : Rec :=
  { baseRec with
    file_name := some "g1.pdf", vendor_name := some "A",
    table_headers := ["Item", "Qty", "Price"],
    scanned_or_typed := some "scanned", handwritten_or_typed := some "typed" }

/-- First record of vendor `"B"`, same layout as `dupA`. -/
def dupB1 : Rec :=
  { dupA with file_name := some "g2.pdf", vendor_name := some "B" }

/-- Second record of vendor `"B"`, same layout as `dupA`. -/
def dupB2 : Rec :=
  { dupA with file_name := some "g3.pdf", vendor_name := some "B" }

/-- Batch whose format group collects two records of the same
canonical vendor `"B"`. -/
def dupBatch : List Rec := [dupA, dupB1, dupB2]

/-- Identity canonical map for vendors `"A"` and `"B"`. -/
def dupVmap : List (String × String) := [("A", "A"), ("B", "B")]

/-- The Scenario 5 record: empty vendor name, empty headers, null
table size. -/
def scn5Rec : Rec := { baseRec with file_name := some "s5.pdf" }

/-- Vendor-name list on which `group_similar_vendors` puts the name
`"v"` into two distinct groups: `"v"` opens a singleton group (it does
not match `"k x"`), then `"k x v"` joins the first group, and the
second occurrence of `"v"` matches the member `"k x v"` of the first
group. -/
def twoGroupNames : List String := ["k x", "v", "k x v", "v"]

/-- The canonical map `detect_red_flags` builds from its batch
(line 102). -/
def vmapOf (invs : List Rec) : List (String × String) :=
  groupSimilarVendors (invs.map vendorOf) 90

/-- The format groups `detect_red_flags` builds from its batch
(line 119). -/
def groupsOf (invs : List Rec) : List (List Rec) :=
  findSimilarFormatGroups invs (vmapOf invs)

/-- The document-to-group dict of lines 122–125 (empty when the
build raised, which only happens when `detect_red_flags` as a whole
errors). -/
def dtfgOf (invs : List Rec) : List (String × Nat) :=
  (dtfgBuild (groupsOf invs).enum []).toOption.getD []

/-- The ten extraction fields of a record, with the four annotation
keys cleared: the projection preserved by `detect_red_flags`. -/
def baseFields (r : Rec) : Rec :=
  { r with flag_type := none, flag_reason := none,
           canonical_vendor := none, format_group_id := none }

/-- Shared-contact batch, record 1: phone `"9"`, vendor `"aa"`,
layout identical to record 2 (so both also belong to a format
group). -/
def shP1 : Rec :=
  { baseRec with
    file_name := some "p1.pdf", vendor_name := some "aa",
    phone_numbers := ["9"], table_headers := ["Item", "Qty", "Price"],
    scanned_or_typed := some "scanned", handwritten_or_typed := some "typed" }

/-- Shared-contact batch, record 2: same phone, vendor `"bb"`. -/
def shP2 : Rec :=
  { shP1 with file_name := some "p2.pdf", vendor_name := some "bb" }

/-- Batch in which both records satisfy the shared-contact condition
and both belong to a format group. -/
def shBatch : List Rec := [shP1, shP2]

/-- The annotated output of `detect_red_flags` on `[baseRec]`. -/
def c7Out : List Rec :=
  [{ baseRec with
     flag_type := some greenFlag, flag_reason := some "No issues detected.",
     canonical_vendor := some "", format_group_id := some none }]

/-- The annotated output of `detect_red_flags` on `shBatch`: both
records are flagged for the shared contact even though both belong to
format group 0. -/
def shOut : List Rec :=
  [{ shP1 with
     flag_type := some sharedContactFlag,
     flag_reason := some ("Contact 9 used by multiple vendors: " ++
       pySetRepr ["aa", "bb"]),
     canonical_vendor := some "aa", format_group_id := some (some 0) },
   { shP2 with
     flag_type := some sharedContactFlag,
     flag_reason := some ("Contact 9 used by multiple vendors: " ++
       pySetRepr ["aa", "bb"]),
     canonical_vendor := some "bb", format_group_id := some (some 0) }]

/-!
## Invariants of `find_longest_match`

Predicates used to verify `SequenceMatcher`: a candidate block is
*good* when it lies inside the rectangle `[alo,ahi) × [blo,bhi)` and
its characters match pairwise; a `j2len` row is *good* when each entry
respects the width bounds of the dynamic programme, and *valid* (for
row `i`) when each entry `(j, k)` records a genuine common suffix of
`a[..i]` and `b[..j]` of length `k`.
-/

namespace SeqMatcher

/-- The block `(i, j, k)` lies in the rectangle and matches
characterwise. -/
def GoodTriple (a b : List Char) (alo ahi blo bhi : Nat) (t : Nat × Nat × Nat) : Prop :=
  alo ≤ t.1 ∧ t.1 + t.2.2 ≤ ahi ∧ blo ≤ t.2.1 ∧ t.2.1 + t.2.2 ≤ bhi ∧
    ∀ d < t.2.2, a.getD (t.1 + d) (Char.ofNat 0) = b.getD (t.2.1 + d) (Char.ofNat 0)

/-- Width bounds on a `j2len` row after `R` rows have been processed:
an entry `(j, k)` satisfies `k + blo ≤ j + 1` and `k ≤ R`. -/
def GoodRow (blo R : Nat) (m : List (Nat × Nat)) : Prop :=
  ∀ p ∈ m, p.2 + blo ≤ p.1 + 1 ∧ p.2 ≤ R

/-- Semantic validity of a `j2len` row built while processing row `i`:
an entry `(j, k)` records `a[i-d] = b[j-d]` for all `d < k`. -/
def ValidRow (a b : List Char) (i : Nat) (m : List (Nat × Nat)) : Prop :=
  ∀ p ∈ m, ∀ d < p.2, a.getD (i - d) (Char.ofNat 0) = b.getD (p.1 - d) (Char.ofNat 0)

/-- Row invariant of the diagonal argument for `ratio(a, a) = 1` (no
junk, `blo = 0`): entries are width-bounded and the diagonal entry of
the last processed row holds the full diagonal length. -/
def ReflPrev (R : Nat) (m : List (Nat × Nat)) : Prop :=
  (∀ p ∈ m, p.2 ≤ p.1 + 1 ∧ p.2 ≤ R) ∧ (0 < R → j2lenGet m (R - 1) = R)

/-- `GoodTriple` for the `Best` record. -/
def GoodBest (a b : List Char) (alo ahi blo bhi : Nat) (st : Best) : Prop :=
  GoodTriple a b alo ahi blo bhi (st.besti, st.bestj, st.bestsize)

end SeqMatcher

/-!
## Claim theorems
-/

/-- C2: for every pair of inputs in which both table sizes are truthy
dicts (non-empty mappings), `are_layouts_similar` returns
`(False, 0.0)` regardless of headers, scan type, or handwriting
category: the dict subtraction of line 53 raises `TypeError` and the
catch-all handler of lines 89–91 returns the zero result (and the
earlier category mismatches return the same zero result). -/
theorem c2_truthy_dicts_always_false_zero
    (headers1 headers2 : List String) (scanned1 scanned2 : Option String)
    (d1 d2 : List (String × Int)) (hw1 hw2 : Option String)
    (h1 : d1 ≠ []) (h2 : d2 ≠ []) :
    areLayoutsSimilar headers1 headers2 scanned1 scanned2 (some d1) (some d2) hw1 hw2
      = (false, 0) := by
  have t1 : dictTruthy (some d1) = true := by
    cases d1 with
    | nil => simp at h1
    | cons x xs => simp [dictTruthy]
  have t2 : dictTruthy (some d2) = true := by
    cases d2 with
    | nil => simp at h2
    | cons x xs => simp [dictTruthy]
  unfold areLayoutsSimilar
  split_ifs with hs hh <;> simp_all

/-- Witness for C2 at a concrete input: identical headers, scan types
and handwriting categories, both table sizes the dict `{"rows": 2}`. -/
theorem c2_truthy_dicts_always_false_zero_witness :
    areLayoutsSimilar ["Item"] ["Item"] (some "scanned") (some "scanned")
      (some [("rows", 2)]) (some [("rows", 2)]) (some "typed") (some "typed")
      = (false, 0) :=
  c2_truthy_dicts_always_false_zero ["Item"] ["Item"] (some "scanned") (some "scanned")
    [("rows", 2)] [("rows", 2)] (some "typed") (some "typed")
    (by decide) (by decide)

/-- C1 (evaluation at the failing input): on the Scenario 2 batch —
three canonical-distinct vendors `"aa"`, `"bb"`, `"cc"` with identical
headers `["Item","Qty","Price"]`, identical `2x3` table-size dicts and
identical scan/handwriting categories — the code produces **no**
format group (the dict subtraction inside `are_layouts_similar` makes
every pairwise score `0.0`), and `detect_red_flags` gives all three
records a Green Flag with null `format_group_id`, contradicting the
claimed single FormatGroup of size 3 with `Same Format, Different
Vendor` flags. -/
theorem c1_scenario2_yields_no_groups_and_green_flags :
    groupSimilarVendors (scn2Batch.map vendorOf) 90 =
      [("aa", "aa"), ("bb", "bb"), ("cc", "cc")] ∧
    findSimilarFormatGroups scn2Batch (groupSimilarVendors (scn2Batch.map vendorOf) 90)
      = [] ∧
    (detectRedFlags scn2Batch).toOption.map (fun out => out.map Rec.flag_type) =
      some [some greenFlag, some greenFlag, some greenFlag] ∧
    (detectRedFlags scn2Batch).toOption.map (fun out => out.map Rec.format_group_id) =
      some [some none, some none, some none] := by
  exact ⟨by decide, by decide, by decide, by decide⟩

/-- C3 (counterexample): on the batch `[dupA, dupB1, dupB2]` with the
identity canonical map, `find_similar_format_groups` returns one group
containing both records of canonical vendor `"B"`: two distinct
members of an output group resolve to the same canonical vendor,
refuting the claim as stated. -/
theorem c3_counterexample_group_with_duplicate_canonical :
    ∃ g ∈ findSimilarFormatGroups dupBatch dupVmap,
      ∃ r1 ∈ g, ∃ r2 ∈ g, r1 ≠ r2 ∧ canonicalOf dupVmap r1 = canonicalOf dupVmap r2 :=
  ⟨[dupA, dupB1, dupB2], by decide, dupB1, by decide, dupB2, by decide,
    by decide, by decide⟩

/-- Invariant of the inner scan of `find_similar_format_groups`: every
record it appends to the candidate group has a canonical vendor
different from the seed's. -/
theorem fsfgInner_appends (invs : List Rec) (vmap : List (String × String))
    (i : Nat) (inv1 : Rec) (js : List Nat) (grp : List Rec) (proc : List Nat) :
    ∃ added, (fsfgInner invs vmap i inv1 js (grp, proc)).1 = grp ++ added ∧
      ∀ r ∈ added, canonicalOf vmap inv1 ≠ canonicalOf vmap r := by
  induction js generalizing grp proc with
  | nil => exact ⟨[], by simp [fsfgInner], by simp⟩
  | cons j js ih =>
    simp only [fsfgInner]
    split
    · exact ih grp proc
    · split
      next hcv =>
        split
        next hsim =>
          obtain ⟨added, h1, h2⟩ := ih (grp ++ [invs.getD j default]) (proc ++ [j])
          refine ⟨invs.getD j default :: added, by simpa using h1, ?_⟩
          intro r hr
          rcases List.mem_cons.mp hr with h | h
          · exact h ▸ hcv
          · exact h2 r h
        next => exact ih grp proc
      next => exact ih grp proc

/-- Invariant of the outer loop of `find_similar_format_groups`: every
group in the output has at least two members, and every non-seed
member has a canonical vendor different from the seed's. -/
theorem fsfgOuter_groups (invs : List Rec) (vmap : List (String × String))
    (is : List Nat) (proc : List Nat) (acc : List (List Rec))
    (hacc : ∀ g ∈ acc, 2 ≤ g.length ∧
      ∀ r ∈ g.tail, canonicalOf vmap g.headI ≠ canonicalOf vmap r) :
    ∀ g ∈ fsfgOuter invs vmap is proc acc, 2 ≤ g.length ∧
      ∀ r ∈ g.tail, canonicalOf vmap g.headI ≠ canonicalOf vmap r := by
  induction is generalizing proc acc with
  | nil => simpa [fsfgOuter] using hacc
  | cons i is ih =>
    simp only [fsfgOuter]
    split
    · exact ih proc acc hacc
    · split
      next hlen =>
        refine ih _ _ ?_
        intro g hg
        rcases List.mem_append.mp hg with h | h
        · exact hacc g h
        · obtain ⟨added, h1, h2⟩ := fsfgInner_appends invs vmap i (invs.getD i default)
            (List.range invs.length) [invs.getD i default] (proc ++ [i])
          rcases List.mem_singleton.mp h with rfl
          rw [h1] at hlen ⊢
          constructor
          · simpa using hlen
          · intro r hr
            simp only [List.singleton_append, List.headI, List.tail_cons] at hr ⊢
            exact h2 r hr
      next => exact ih _ _ hacc

/-- C3 (amended): every group returned by `find_similar_format_groups`
has at least two members, and every member other than the seed (the
first member) resolves to a canonical vendor different from the seed's
canonical vendor; two non-seed members may still share a canonical
vendor, as the counterexample shows. -/
theorem c3_amended_groups_seed_distinct (invs : List Rec)
    (vmap : List (String × String)) (g : List Rec)
    (hg : g ∈ findSimilarFormatGroups invs vmap) :
    2 ≤ g.length ∧ ∀ r ∈ g.tail, canonicalOf vmap g.headI ≠ canonicalOf vmap r :=
  fsfgOuter_groups invs vmap (List.range invs.length) [] [] (by simp) g hg

/-- Witness for the amended C3 at the concrete batch. -/
theorem c3_amended_groups_seed_distinct_witness :
    2 ≤ ([dupA, dupB1, dupB2] : List Rec).length ∧
      ∀ r ∈ ([dupA, dupB1, dupB2] : List Rec).tail,
        canonicalOf dupVmap ([dupA, dupB1, dupB2] : List Rec).headI ≠
          canonicalOf dupVmap r :=
  c3_amended_groups_seed_distinct dupBatch dupVmap [dupA, dupB1, dupB2] (by decide)

/-- Unrolling of the main loop of `detect_red_flags`: when the loop
returns a list, that list extends the accumulator by one annotated
record per remaining input, each classified against the batch state in
which the already-processed prefix is annotated (mirroring the
in-place mutation of the input dicts). -/
theorem detectLoop_spec (invs : List Rec) (vmap : List (String × String))
    (groups : List (List Rec)) (dtfg : List (String × Nat)) (rest : List Rec) :
    ∀ acc out, detectLoop invs vmap groups dtfg acc rest = .ok out →
      out.length = acc.length + rest.length ∧ out.take acc.length = acc ∧
      ∀ k, k < rest.length →
        ∃ ft fr,
          classify invs vmap groups dtfg (out.take (acc.length + k) ++ rest.drop k)
            (rest.getD k default) = .ok (ft, fr) ∧
          out.getD (acc.length + k) default =
            annotate vmap dtfg (rest.getD k default) ft fr := by
  induction rest with
  | nil =>
    intro acc out h
    simp only [detectLoop, Except.ok.injEq] at h
    subst h
    simp
  | cons inv rest ih =>
    intro acc out h
    simp only [detectLoop] at h
    cases hc : classify invs vmap groups dtfg (acc ++ inv :: rest) inv with
    | error e => rw [hc] at h; exact absurd h (by simp)
    | ok ftr =>
      rw [hc] at h
      obtain ⟨hlen, htake, hks⟩ := ih (acc ++ [annotate vmap dtfg inv ftr.1 ftr.2]) out h
      simp only [List.length_append, List.length_cons, List.length_nil,
        Nat.add_zero] at hlen htake hks
      have htake' : out.take acc.length = acc := by
        have h1 := congrArg (List.take acc.length) htake
        rw [List.take_take, Nat.min_eq_left (by omega)] at h1
        rw [h1, List.take_append_of_le_length (by omega), List.take_length]
      refine ⟨by simp; omega, htake', ?_⟩
      intro k hk
      cases k with
      | zero =>
        refine ⟨ftr.1, ftr.2, ?_, ?_⟩
        · rw [Nat.add_zero, htake']
          simpa using hc
        · have h2 := congrArg (fun l => l[acc.length]?) htake
          simp only [List.getElem?_take_of_lt (Nat.lt_succ_self acc.length),
            List.getElem?_concat_length] at h2
          simp [List.getD_eq_getElem?_getD, h2]
      | succ k' =>
        have hx := hks k' (by simpa using hk)
        have harith : acc.length + 1 + k' = acc.length + (k' + 1) := by omega
        rw [harith] at hx
        simpa using hx

/-- Specification of `detect_red_flags` in terms of the per-record
classification: on success, record `k` of the output is record `k` of
the input annotated with the flag `classify` computes for it in the
batch state where records `0..k-1` are already annotated. -/
theorem detectRedFlags_spec (invs out : List Rec)
    (h : detectRedFlags invs = .ok out) :
    dtfgBuild (groupsOf invs).enum [] = .ok (dtfgOf invs) ∧
    out.length = invs.length ∧
    ∀ k, k < invs.length →
      ∃ ft fr,
        classify invs (vmapOf invs) (groupsOf invs) (dtfgOf invs)
          (out.take k ++ invs.drop k) (invs.getD k default) = .ok (ft, fr) ∧
        out.getD k default =
          annotate (vmapOf invs) (dtfgOf invs) (invs.getD k default) ft fr := by
  simp only [detectRedFlags] at h
  cases hb : dtfgBuild
      (findSimilarFormatGroups invs (groupSimilarVendors (invs.map vendorOf) 90)).enum
      [] with
  | error e => rw [hb] at h; exact absurd h (by simp)
  | ok dtfg =>
    rw [hb] at h
    have hgroups : groupsOf invs =
        findSimilarFormatGroups invs (groupSimilarVendors (invs.map vendorOf) 90) := rfl
    have hd : dtfgOf invs = dtfg := by
      unfold dtfgOf
      rw [hgroups, hb]
      rfl
    obtain ⟨h1, h2, h3⟩ := detectLoop_spec invs
      (groupSimilarVendors (invs.map vendorOf) 90)
      (findSimilarFormatGroups invs (groupSimilarVendors (invs.map vendorOf) 90))
      dtfg invs [] out h
    refine ⟨by rw [hgroups, hb, hd], by simpa using h1, ?_⟩
    intro k hk
    obtain ⟨ft, fr, hcl, hout⟩ := h3 k (by simpa using hk)
    exact ⟨ft, fr, by simpa [vmapOf, groupsOf, hd] using hcl,
      by simpa [vmapOf, hd] using hout⟩

/-- C8 (counterexample): `detect_red_flags` mutates its input records.
Lines 174–177 assign the four annotation keys to each input dict and
line 178 appends that same dict object to the output list, so the
returned records are the input records themselves in their post-call
state.  On the batch `[baseRec]` the returned record carries the new
keys and is therefore not equal to the record that was passed in: the
inputs were modified in place, refuting the no-modification part of
the claim. -/
theorem c8_counterexample_input_record_modified :
    (detectRedFlags [baseRec]).toOption = some c7Out ∧ c7Out ≠ [baseRec] :=
  ⟨by decide, by decide⟩

/-- C8 (amended): `detect_red_flags` has no effects beyond annotating
the batch: it returns one record per input record, each preserving all
ten original extraction fields unchanged; but the records it returns
are the input records annotated in place, so the inputs themselves do
gain the four annotation keys. -/
theorem c8_amended_original_fields_preserved (invs out : List Rec)
    (h : detectRedFlags invs = .ok out) :
    out.length = invs.length ∧
    ∀ k, baseFields (out.getD k default) = baseFields (invs.getD k default) := by
  obtain ⟨-, hlen, hks⟩ := detectRedFlags_spec invs out h
  refine ⟨hlen, fun k => ?_⟩
  by_cases hk : k < invs.length
  · obtain ⟨ft, fr, -, hout⟩ := hks k hk
    rw [hout]
    rfl
  · rw [List.getD_eq_default, List.getD_eq_default]
    · omega
    · omega

/-- `Except.toOption` determines success: a helper to discharge
`detect_red_flags invs = .ok out` hypotheses by evaluation. -/
theorem except_eq_ok_of_toOption {α : Type} (x : Except String α) (l : α)
    (h : x.toOption = some l) : x = .ok l := by
  cases x with
  | error e => simp [Except.toOption] at h
  | ok v => simpa [Except.toOption] using congrArg (Except.ok (ε := String)) h

/-- Witness for the amended C8 on the batch `[baseRec]`. -/
theorem c8_amended_original_fields_preserved_witness :
    c7Out.length = ([baseRec] : List Rec).length ∧
    ∀ k, baseFields (c7Out.getD k default) =
      baseFields (([baseRec] : List Rec).getD k default) :=
  c8_amended_original_fields_preserved [baseRec] c7Out
    (except_eq_ok_of_toOption _ _ (by decide))

/-- A string with a nonempty prefix is nonempty. -/
theorem append_ne_empty_of_left_ne (p s : String) (hp : p.length ≠ 0) :
    p ++ s ≠ "" := by
  intro h
  have h1 := congrArg String.length h
  rw [String.length_append] at h1
  have h2 : String.length "" = 0 := rfl
  omega

/-- Every flag `classify` returns is one of the four flag strings, and
its reason string is nonempty. -/
theorem classify_ok_shape (invs : List Rec) (vmap : List (String × String))
    (groups : List (List Rec)) (dtfg : List (String × Nat)) (cur : List Rec)
    (inv : Rec) (ft fr : String)
    (h : classify invs vmap groups dtfg cur inv = .ok (ft, fr)) :
    (ft = sharedContactFlag ∨ ft = sameFormatFlag ∨ ft = diffFormatFlag ∨
      ft = greenFlag) ∧ fr ≠ "" := by
  simp only [classify] at h
  split at h
  · exact absurd h (by simp)
  · split at h
    · simp only [Except.ok.injEq, Prod.mk.injEq] at h
      obtain ⟨hft, hfr⟩ := h
      subst hft hfr
      refine ⟨Or.inl rfl, fun h0 => ?_⟩
      have h1 := congrArg String.length h0
      simp only [String.length_append] at h1
      have hA : String.length "Contact " = 8 := rfl
      have hE : String.length "" = 0 := rfl
      omega
    · split at h
      · split at h
        · exact absurd h (by simp)
        · simp only [Except.ok.injEq, Prod.mk.injEq] at h
          obtain ⟨hft, hfr⟩ := h
          subst hft hfr
          refine ⟨Or.inr (Or.inl rfl), fun h0 => ?_⟩
          have h1 := congrArg String.length h0
          simp only [String.length_append] at h1
          have hA : String.length "Part of format group with vendors: " = 35 := rfl
          have hE : String.length "" = 0 := rfl
          omega
      · split at h
        · simp only [Except.ok.injEq, Prod.mk.injEq] at h
          obtain ⟨hft, hfr⟩ := h
          subst hft hfr
          refine ⟨Or.inr (Or.inr (Or.inl rfl)), fun h0 => ?_⟩
          have h1 := congrArg String.length h0
          simp only [String.length_append] at h1
          have hA : String.length "Other invoice for " = 18 := rfl
          have hE : String.length "" = 0 := rfl
          omega
        · simp only [Except.ok.injEq, Prod.mk.injEq] at h
          obtain ⟨hft, hfr⟩ := h
          subst hft hfr
          exact ⟨Or.inr (Or.inr (Or.inr rfl)), by decide⟩

/-- Entries added by `dtfgDocs` carry the fixed group index. -/
theorem dtfgDocs_bound (idx n : Nat) (hidx : idx < n) :
    ∀ docs acc m, dtfgDocs idx docs acc = .ok m → (∀ p ∈ acc, p.2 < n) →
      ∀ p ∈ m, p.2 < n := by
  intro docs
  induction docs with
  | nil =>
    intro acc m h hacc
    simp only [dtfgDocs, Except.ok.injEq] at h
    subst h
    exact hacc
  | cons d ds ih =>
    intro acc m h hacc
    simp only [dtfgDocs] at h
    cases hfn : d.file_name with
    | none => rw [hfn] at h; exact absurd h (by simp)
    | some fn =>
      rw [hfn] at h
      refine ih (acc ++ [(fn, idx)]) m h ?_
      intro p hp
      rcases List.mem_append.mp hp with h' | h'
      · exact hacc p h'
      · rcases List.mem_singleton.mp h' with rfl
        exact hidx

/-- Every index recorded in `doc_to_format_group` is the index of one
of the groups. -/
theorem dtfgBuild_bound (n : Nat) :
    ∀ l acc m, dtfgBuild l acc = .ok m → (∀ x ∈ l, x.1 < n) →
      (∀ p ∈ acc, p.2 < n) → ∀ p ∈ m, p.2 < n := by
  intro l
  induction l with
  | nil =>
    intro acc m h _ hacc
    simp only [dtfgBuild, Except.ok.injEq] at h
    subst h
    exact hacc
  | cons x xs ih =>
    intro acc m h hl hacc
    obtain ⟨idx, g⟩ := x
    simp only [dtfgBuild] at h
    cases hd : dtfgDocs idx g acc with
    | error e => rw [hd] at h; exact absurd h (by simp)
    | ok acc' =>
      rw [hd] at h
      refine ih acc' m h (fun x hx => hl x (List.mem_cons_of_mem _ hx)) ?_
      exact dtfgDocs_bound idx n (hl (idx, g) (List.mem_cons_self _ _)) g acc acc' hd hacc

/-- C7: every record returned by `detect_red_flags` carries exactly
one `flag_type` drawn from the four-value enum, a nonempty
`flag_reason`, its `canonical_vendor`, and a `format_group_id` that is
either null or a valid index into the format-group list. -/
theorem c7_output_record_shape (invs out : List Rec)
    (h : detectRedFlags invs = .ok out) :
    out.length = invs.length ∧
    ∀ r ∈ out,
      (r.flag_type = some sharedContactFlag ∨ r.flag_type = some sameFormatFlag ∨
        r.flag_type = some diffFormatFlag ∨ r.flag_type = some greenFlag) ∧
      (∃ s, r.flag_reason = some s ∧ s ≠ "") ∧
      (∃ c, r.canonical_vendor = some c) ∧
      (∃ gid, r.format_group_id = some gid ∧
        ∀ i, gid = some i → i < (groupsOf invs).length) := by
  obtain ⟨hdtfg, hlen, hks⟩ := detectRedFlags_spec invs out h
  refine ⟨hlen, ?_⟩
  intro r hr
  obtain ⟨k, hk, hget⟩ := List.mem_iff_getElem.mp hr
  have hget' : out.getD k default = r := by
    rw [List.getD_eq_getElem?_getD, List.getElem?_eq_getElem hk, hget]
    rfl
  obtain ⟨ft, fr, hcl, hout⟩ := hks k (by omega)
  rw [hget'] at hout
  obtain ⟨hfour, hne⟩ := classify_ok_shape _ _ _ _ _ _ _ _ hcl
  subst hout
  refine ⟨?_, ⟨fr, rfl, hne⟩, ⟨_, rfl⟩, ⟨_, rfl, ?_⟩⟩
  · simpa [annotate] using hfour.imp (fun h => by simp [h])
      (fun h => h.imp (fun h => by simp [h]) (fun h => h.imp
        (fun h => by simp [h]) (fun h => by simp [h])))
  · intro i hi
    simp only [dictGetNat?, Option.map_eq_some'] at hi
    obtain ⟨p, hp, hpi⟩ := hi
    have hpm : p ∈ dtfgOf invs := List.mem_reverse.mp (List.mem_of_find?_eq_some hp)
    have := dtfgBuild_bound (groupsOf invs).length (groupsOf invs).enum []
      (dtfgOf invs) hdtfg ?_ (by simp) p hpm
    · omega
    · intro x hx
      obtain ⟨i', x'⟩ := x
      have := List.mk_mem_enum_iff_getElem?.mp hx
      simp only []
      exact (List.getElem?_eq_some.mp this).1

/-- Witness for C7 on the batch `[baseRec]`. -/
theorem c7_output_record_shape_witness :
    c7Out.length = ([baseRec] : List Rec).length ∧
    ∀ r ∈ c7Out,
      (r.flag_type = some sharedContactFlag ∨ r.flag_type = some sameFormatFlag ∨
        r.flag_type = some diffFormatFlag ∨ r.flag_type = some greenFlag) ∧
      (∃ s, r.flag_reason = some s ∧ s ≠ "") ∧
      (∃ c, r.canonical_vendor = some c) ∧
      (∃ gid, r.format_group_id = some gid ∧
        ∀ i, gid = some i → i < (groupsOf [baseRec]).length) :=
  c7_output_record_shape [baseRec] c7Out (except_eq_ok_of_toOption _ _ (by decide))

/-- C6: per-record decision precedence.  Part one: `classify`
evaluates the four rules in the fixed order shared-contact,
same-format-different-vendor, different-format-same-vendor, green, and
assigns the flag of the first rule whose condition holds — in
particular a record satisfying the shared-contact condition is flagged
`Shared Contact Info` regardless of format-group membership, and
`Green Flag` is assigned exactly when no earlier rule fires.  Part
two: on success `detect_red_flags` gives each record the flag
`classify` computes for it. -/
theorem c6_rule_precedence :
    (∀ (invs : List Rec) (vmap : List (String × String)) (groups : List (List Rec))
        (dtfg : List (String × Nat)) (cur : List Rec) (inv : Rec) (fn ft fr : String),
        inv.file_name = some fn →
        classify invs vmap groups dtfg cur inv = .ok (ft, fr) →
        ((rule1Find invs vmap (canonicalOf vmap inv)
            (inv.phone_numbers ++ inv.email_addresses)).isSome →
          ft = sharedContactFlag) ∧
        (rule1Find invs vmap (canonicalOf vmap inv)
            (inv.phone_numbers ++ inv.email_addresses) = none →
          dictHasKey dtfg fn = true → ft = sameFormatFlag) ∧
        (rule1Find invs vmap (canonicalOf vmap inv)
            (inv.phone_numbers ++ inv.email_addresses) = none →
          dictHasKey dtfg fn = false →
          (rule3Scan inv (cur.filter
            (fun r => canonicalOf vmap r = canonicalOf vmap inv))).isSome →
          ft = diffFormatFlag) ∧
        (ft = greenFlag ↔
          rule1Find invs vmap (canonicalOf vmap inv)
            (inv.phone_numbers ++ inv.email_addresses) = none ∧
          dictHasKey dtfg fn = false ∧
          rule3Scan inv (cur.filter
            (fun r => canonicalOf vmap r = canonicalOf vmap inv)) = none)) ∧
    (∀ invs out, detectRedFlags invs = .ok out → ∀ k, k < invs.length →
        ∃ ft fr, classify invs (vmapOf invs) (groupsOf invs) (dtfgOf invs)
          (out.take k ++ invs.drop k) (invs.getD k default) = .ok (ft, fr) ∧
          (out.getD k default).flag_type = some ft) := by
  constructor
  · intro invs vmap groups dtfg cur inv fn ft fr hfn h
    simp only [classify, hfn] at h
    cases h1 : rule1Find invs vmap (canonicalOf vmap inv)
        (inv.phone_numbers ++ inv.email_addresses) with
    | some cvs =>
      rw [h1] at h
      simp only [Except.ok.injEq, Prod.mk.injEq] at h
      obtain ⟨hft, -⟩ := h
      subst hft
      refine ⟨fun _ => rfl, by simp, by simp, ?_⟩
      constructor
      · intro hgf
        exact absurd hgf (by decide)
      · rintro ⟨hnone, -⟩
        exact absurd hnone (by simp)
    | none =>
      rw [h1] at h
      by_cases h2 : dictHasKey dtfg fn = true
      · rw [if_pos h2] at h
        cases h3 : otherVendorsOf fn
            (groups.getD ((dictGetNat? dtfg fn).getD 0) []) with
        | error e => rw [h3] at h; exact absurd h (by simp)
        | ok ovs =>
          rw [h3] at h
          simp only [Except.ok.injEq, Prod.mk.injEq] at h
          obtain ⟨hft, -⟩ := h
          subst hft
          refine ⟨by simp [h1], fun _ _ => rfl, by simp [h2], ?_⟩
          constructor
          · intro hgf
            exact absurd hgf (by decide)
          · rintro ⟨-, hkey, -⟩
            exact absurd h2 (by simp [hkey])
      · rw [if_neg h2] at h
        cases h3 : rule3Scan inv (cur.filter
            (fun r => canonicalOf vmap r = canonicalOf vmap inv)) with
        | some sim =>
          rw [h3] at h
          simp only [Except.ok.injEq, Prod.mk.injEq] at h
          obtain ⟨hft, -⟩ := h
          subst hft
          refine ⟨by simp [h1], by simp [h2], fun _ _ _ => rfl, ?_⟩
          constructor
          · intro hgf
            exact absurd hgf (by decide)
          · rintro ⟨-, -, hr3⟩
            exact absurd hr3 (by simp)
        | none =>
          rw [h3] at h
          simp only [Except.ok.injEq, Prod.mk.injEq] at h
          obtain ⟨hft, -⟩ := h
          subst hft
          exact ⟨by simp, by simp [h2], by simp,
            ⟨fun _ => ⟨rfl, by simpa using h2, rfl⟩, fun _ => rfl⟩⟩
  · intro invs out h k hk
    obtain ⟨-, -, hks⟩ := detectRedFlags_spec invs out h
    obtain ⟨ft, fr, hcl, hout⟩ := hks k hk
    exact ⟨ft, fr, hcl, by rw [hout]; rfl⟩

set_option maxHeartbeats 3000000 in
/-- Witness for C6 on `shBatch`: record `shP1` satisfies the
shared-contact condition and also belongs to format group 0, and the
flag `detect_red_flags` assigns it is `Shared Contact Info`. -/
theorem c6_rule_precedence_witness :
    dictHasKey (dtfgOf shBatch) "p1.pdf" = true ∧
    (shOut.getD 0 default).flag_type = some sharedContactFlag := by
  obtain ⟨ft, fr, hcl, hft⟩ := c6_rule_precedence.2 shBatch shOut
    (except_eq_ok_of_toOption _ _ (by decide)) 0 (by decide)
  have h1 : ft = sharedContactFlag :=
    (c6_rule_precedence.1 shBatch (vmapOf shBatch) (groupsOf shBatch)
      (dtfgOf shBatch) (shOut.take 0 ++ shBatch.drop 0) (shBatch.getD 0 default)
      "p1.pdf" ft fr (by decide) hcl).1 (by decide)
  exact ⟨by decide, by rw [hft, h1]⟩

/-- Members added to a candidate group by the inner scan are members
of the batch. -/
theorem fsfgInner_mem (invs : List Rec) (vmap : List (String × String))
    (i : Nat) (inv1 : Rec) :
    ∀ js grp proc, (∀ j ∈ js, j < invs.length) → (∀ r ∈ grp, r ∈ invs) →
      ∀ r ∈ (fsfgInner invs vmap i inv1 js (grp, proc)).1, r ∈ invs := by
  intro js
  induction js with
  | nil => intro grp proc _ hgrp r hr; exact hgrp r (by simpa [fsfgInner] using hr)
  | cons j js ih =>
    intro grp proc hjs hgrp r hr
    have hj : j < invs.length := hjs j (List.mem_cons_self _ _)
    have hjs' : ∀ j' ∈ js, j' < invs.length :=
      fun j' hj' => hjs j' (List.mem_cons_of_mem _ hj')
    have hmem : invs.getD j default ∈ invs := by
      rw [List.getD_eq_getElem _ _ hj]
      exact List.getElem_mem hj
    simp only [fsfgInner] at hr
    split at hr
    · exact ih grp proc hjs' hgrp r hr
    · split at hr
      · split at hr
        · refine ih (grp ++ [invs.getD j default]) (proc ++ [j]) hjs' ?_ r hr
          intro r' hr'
          rcases List.mem_append.mp hr' with h | h
          · exact hgrp r' h
          · rcases List.mem_singleton.mp h with rfl
            exact hmem
        · exact ih grp proc hjs' hgrp r hr
      · exact ih grp proc hjs' hgrp r hr

/-- Every member of every output group of `find_similar_format_groups`
is a member of the batch. -/
theorem fsfg_members (invs : List Rec) (vmap : List (String × String)) :
    ∀ g ∈ findSimilarFormatGroups invs vmap, ∀ r ∈ g, r ∈ invs := by
  suffices h : ∀ is proc acc, (∀ i ∈ is, i < invs.length) →
      (∀ g ∈ acc, ∀ r ∈ g, r ∈ invs) →
      ∀ g ∈ fsfgOuter invs vmap is proc acc, ∀ r ∈ g, r ∈ invs by
    exact h (List.range invs.length) [] [] (by simp) (by simp)
  intro is
  induction is with
  | nil => intro proc acc _ hacc; simpa [fsfgOuter] using hacc
  | cons i is ih =>
    intro proc acc his hacc g hg
    have hi : i < invs.length := his i (List.mem_cons_self _ _)
    have his' : ∀ i' ∈ is, i' < invs.length :=
      fun i' hi' => his i' (List.mem_cons_of_mem _ hi')
    have hmem : invs.getD i default ∈ invs := by
      rw [List.getD_eq_getElem _ _ hi]
      exact List.getElem_mem hi
    simp only [fsfgOuter] at hg
    split at hg
    · exact ih proc acc his' hacc g hg
    · split at hg
      · refine ih _ _ his' ?_ g hg
        intro g' hg' r hr
        rcases List.mem_append.mp hg' with h | h
        · exact hacc g' h r hr
        · rcases List.mem_singleton.mp h with rfl
          exact fsfgInner_mem invs vmap i (invs.getD i default)
            (List.range invs.length) [invs.getD i default] (proc ++ [i])
            (by simp) (by simpa using hmem) r hr
      · exact ih _ _ his' hacc g hg

/-- `dtfgDocs` succeeds on documents that all carry a `file_name`. -/
theorem dtfgDocs_ok (idx : Nat) :
    ∀ docs acc, (∀ d ∈ docs, d.file_name ≠ none) →
      ∃ m, dtfgDocs idx docs acc = .ok m := by
  intro docs
  induction docs with
  | nil => intro acc _; exact ⟨acc, rfl⟩
  | cons d ds ih =>
    intro acc hds
    have hd := hds d (List.mem_cons_self _ _)
    cases hfn : d.file_name with
    | none => exact absurd hfn hd
    | some fn =>
      obtain ⟨m, hm⟩ := ih (acc ++ [(fn, idx)])
        (fun d' hd' => hds d' (List.mem_cons_of_mem _ hd'))
      exact ⟨m, by simp only [dtfgDocs, hfn]; exact hm⟩

/-- `dtfgBuild` succeeds when every grouped document carries a
`file_name`. -/
theorem dtfgBuild_ok :
    ∀ l acc, (∀ x ∈ l, ∀ d ∈ x.2, d.file_name ≠ none) →
      ∃ m, dtfgBuild l acc = .ok m := by
  intro l
  induction l with
  | nil => intro acc _; exact ⟨acc, rfl⟩
  | cons x xs ih =>
    intro acc hl
    obtain ⟨idx, g⟩ := x
    obtain ⟨acc', hacc'⟩ := dtfgDocs_ok idx g acc
      (fun d hd => hl (idx, g) (List.mem_cons_self _ _) d hd)
    obtain ⟨m, hm⟩ := ih acc' (fun x hx => hl x (List.mem_cons_of_mem _ hx))
    exact ⟨m, by simp only [dtfgBuild, hacc']; exact hm⟩

/-- The other-vendor join of the same-format reason succeeds when the
grouped documents all carry a `file_name` and a non-null
`vendor_name`. -/
theorem otherVendorsOf_ok (fn : String) :
    ∀ docs, (∀ d ∈ docs, d.file_name ≠ none ∧ d.vendor_name ≠ none) →
      ∃ ovs, otherVendorsOf fn docs = .ok ovs := by
  intro docs
  induction docs with
  | nil => exact fun _ => ⟨[], rfl⟩
  | cons d ds ih =>
    intro hds
    obtain ⟨hfn, hvn⟩ := hds d (List.mem_cons_self _ _)
    obtain ⟨ovs, hovs⟩ := ih (fun d' hd' => hds d' (List.mem_cons_of_mem _ hd'))
    cases hfn' : d.file_name with
    | none => exact absurd hfn' hfn
    | some dfn =>
      cases hvn' : d.vendor_name with
      | none => exact absurd hvn' hvn
      | some v =>
        by_cases heq : dfn = fn
        · exact ⟨ovs, by simp only [otherVendorsOf, hfn', hvn', if_pos heq]; exact hovs⟩
        · exact ⟨v :: ovs, by
            simp only [otherVendorsOf, hfn', hvn', if_neg heq, hovs, Except.map]⟩

/-- `classify` succeeds on a record with a `file_name` when every
grouped document carries a `file_name` and a non-null `vendor_name`. -/
theorem classify_ok (invs : List Rec) (vmap : List (String × String))
    (groups : List (List Rec)) (dtfg : List (String × Nat)) (cur : List Rec)
    (inv : Rec) (hfn : inv.file_name ≠ none)
    (hg : ∀ g ∈ groups, ∀ d ∈ g, d.file_name ≠ none ∧ d.vendor_name ≠ none) :
    ∃ p, classify invs vmap groups dtfg cur inv = .ok p := by
  cases hfn' : inv.file_name with
  | none => exact absurd hfn' hfn
  | some fn =>
    simp only [classify, hfn']
    cases rule1Find invs vmap (canonicalOf vmap inv)
        (inv.phone_numbers ++ inv.email_addresses) with
    | some cvs => exact ⟨_, rfl⟩
    | none =>
      simp only []
      split
      · have hgd : ∀ d ∈ groups.getD ((dictGetNat? dtfg fn).getD 0) [],
            d.file_name ≠ none ∧ d.vendor_name ≠ none := by
          intro d hd
          by_cases hidx : (dictGetNat? dtfg fn).getD 0 < groups.length
          · refine hg _ ?_ d hd
            rw [List.getD_eq_getElem _ _ hidx]
            exact List.getElem_mem hidx
          · rw [List.getD_eq_default _ _ (by omega)] at hd
            simp at hd
        obtain ⟨ovs, hovs⟩ := otherVendorsOf_ok fn _ hgd
        rw [hovs]
        exact ⟨_, rfl⟩
      · cases rule3Scan inv (cur.filter
            (fun r => canonicalOf vmap r = canonicalOf vmap inv)) with
        | some sim => exact ⟨_, rfl⟩
        | none => exact ⟨_, rfl⟩

/-- The main loop of `detect_red_flags` succeeds under the same field
presence conditions. -/
theorem detectLoop_ok (invs : List Rec) (vmap : List (String × String))
    (groups : List (List Rec)) (dtfg : List (String × Nat))
    (hg : ∀ g ∈ groups, ∀ d ∈ g, d.file_name ≠ none ∧ d.vendor_name ≠ none) :
    ∀ rest acc, (∀ r ∈ rest, r.file_name ≠ none) →
      ∃ out, detectLoop invs vmap groups dtfg acc rest = .ok out := by
  intro rest
  induction rest with
  | nil => intro acc _; exact ⟨acc, rfl⟩
  | cons inv rest ih =>
    intro acc hrest
    obtain ⟨p, hp⟩ := classify_ok invs vmap groups dtfg (acc ++ inv :: rest) inv
      (hrest inv (List.mem_cons_self _ _)) hg
    obtain ⟨out, hout⟩ := ih (acc ++ [annotate vmap dtfg inv p.1 p.2])
      (fun r hr => hrest r (List.mem_cons_of_mem _ hr))
    exact ⟨out, by simp only [detectLoop, hp]; exact hout⟩

/-- C10: for a batch of records that (like every record the
application builds) carry a `file_name` key and a non-null (possibly
empty) `vendor_name`, `detect_red_flags` does not raise and returns
one flagged record per input — in particular a record with empty
vendor name, empty headers and null table size is classified, the
fingerprint construction falling back to `"unknown"` tokens and
`"?x?"` for the size. -/
theorem c10_no_raise_empty_fields :
    (∀ invs : List Rec,
      (∀ r ∈ invs, r.file_name ≠ none ∧ r.vendor_name ≠ none) →
      ∃ out, detectRedFlags invs = .ok out ∧ out.length = invs.length) ∧
    structuralFingerprint [] (some "") none none = "::unknown::?x?::unknown" ∧
    structuralFingerprint [] none none none = "None::unknown::?x?::unknown" ∧
    (detectRedFlags [scn5Rec]).toOption.map (fun out => out.map Rec.flag_type) =
      some [some greenFlag] := by
  refine ⟨?_, rfl, rfl, by decide⟩
  intro invs hb
  have hg : ∀ g ∈ groupsOf invs, ∀ d ∈ g,
      d.file_name ≠ none ∧ d.vendor_name ≠ none :=
    fun g hgm d hd => hb d (fsfg_members invs (vmapOf invs) g hgm d hd)
  obtain ⟨dtfg, hdtfg⟩ := dtfgBuild_ok (groupsOf invs).enum []
    (fun x hx d hd => (hg x.2 (by
      obtain ⟨i, g⟩ := x
      have h1 := List.mk_mem_enum_iff_getElem?.mp hx
      obtain ⟨hlt, rfl⟩ := List.getElem?_eq_some.mp h1
      exact List.getElem_mem hlt) d hd).1)
  obtain ⟨out, hout⟩ := detectLoop_ok invs (vmapOf invs) (groupsOf invs) dtfg
    hg invs [] (fun r hr => (hb r hr).1)
  refine ⟨out, ?_, ?_⟩
  · show detectRedFlags invs = .ok out
    simp only [detectRedFlags]
    rw [show (findSimilarFormatGroups invs
        (groupSimilarVendors (List.map vendorOf invs) 90)) = groupsOf invs from rfl,
      hdtfg]
    exact hout
  · have := detectLoop_spec invs (vmapOf invs) (groupsOf invs) dtfg invs [] out hout
    simpa using this.1

/-- Witness for C10: the Scenario 5 record (empty vendor name, empty
headers, null table size) is processed without error. -/
theorem c10_no_raise_empty_fields_witness :
    ∃ out, detectRedFlags [scn5Rec] = .ok out ∧ out.length = ([scn5Rec] : List Rec).length :=
  c10_no_raise_empty_fields.1 [scn5Rec] (by decide)

/-- C5 (counterexample): on the name list
`["k x", "v", "k x v", "v"]` the name `"v"` ends up in two groups
(its first occurrence opens the singleton group 1, `"k x v"` then
joins group 0, and the second occurrence of `"v"` matches the member
`"k x v"` of group 0), and the final map sends `"v"` to `"v"` — not to
`"k x"`, the lexicographically smallest member of group 0 of which
`"v"` is a member.  This refutes the claim that after processing,
every member of a group maps to that group's smallest member. -/
theorem c5_counterexample_member_not_mapped_to_group_min :
    gsvGroups twoGroupNames 90 = [["k x", "k x v", "v"], ["v"]] ∧
    "v" ∈ (gsvGroups twoGroupNames 90).getD 0 [] ∧
    minString ((gsvGroups twoGroupNames 90).getD 0 []) = "k x" ∧
    dictGetD (groupSimilarVendors twoGroupNames 90) "v" "v" = "v" :=
  ⟨by decide, by decide, by decide, by decide⟩

/-- The inner scan of `group_similar_vendors` adds the incoming name
to the first group containing a member within threshold, and touches
no other group. -/
theorem gsvScan_eq (θ : ℤ) (v : String) :
    ∀ groups : List (List String),
      gsvScan θ v groups =
        (groups.findIdx? (fun g => g.any (fun m => θ ≤ Fuzz.tokenSetRatio v m))).map
          (fun i => groups.set i (setAdd (groups.getD i []) v)) := by
  intro groups
  induction groups with
  | nil => rfl
  | cons g gs ih =>
    by_cases hp : g.any (fun m => θ ≤ Fuzz.tokenSetRatio v m)
    · simp [gsvScan, hp, List.findIdx?_cons]
    · have hcons : List.findIdx?
          (fun g => g.any (fun m => θ ≤ Fuzz.tokenSetRatio v m)) (g :: gs)
          = (List.findIdx?
              (fun g => g.any (fun m => θ ≤ Fuzz.tokenSetRatio v m)) gs).map
            (· + 1) := by
        simp [List.findIdx?_cons, hp]
      simp only [gsvScan, hp, if_neg, Bool.false_eq_true, not_false_iff, ih, hcons]
      cases hfi : List.findIdx? (fun g => g.any (fun m => θ ≤ Fuzz.tokenSetRatio v m)) gs with
      | none => rfl
      | some i => simp

/-- Keys of the assignment block of one group are exactly its
members, and every value is the group's minimum. -/
theorem gsv_block_find (g : List String) (v : String) :
    ∀ p ∈ (g.map (fun w => (w, minString g))), p.1 = v → v ∈ g ∧ p.2 = minString g := by
  intro p hp hpv
  obtain ⟨w, hw, rfl⟩ := List.mem_map.mp hp
  exact ⟨hpv ▸ hw, rfl⟩

/-- Last-wins lookup across an appended block. -/
theorem dictGetD_append (m1 m2 : List (String × String)) (k d : String) :
    dictGetD (m1 ++ m2) k d =
      match m2.reverse.find? (fun p => p.1 = k) with
      | some p => p.2
      | none => dictGetD m1 k d := by
  unfold dictGetD
  rw [List.reverse_append, List.find?_append]
  cases m2.reverse.find? (fun p => p.1 = k) with
  | none => simp
  | some p => simp

/-- The canonical map built by `group_similar_vendors` sends a name to
the minimum of the **last** group containing it. -/
theorem gsv_map_last_group (gs : List (List String)) :
    ∀ (v : String) (i : Nat), i < gs.length → v ∈ gs.getD i [] →
      (∀ j, i < j → j < gs.length → v ∉ gs.getD j []) →
      dictGetD (gs.foldl (fun acc g => acc ++ g.map (fun w => (w, minString g))) []) v v
        = minString (gs.getD i []) := by
  induction gs using List.reverseRecOn with
  | nil => intro v i hi; simp at hi
  | append_singleton gs g ih =>
    intro v i hi hv hlast
    rw [List.foldl_append]
    simp only [List.foldl_cons, List.foldl_nil]
    rw [dictGetD_append]
    have hgd : (gs ++ [g]).getD gs.length [] = g := by
      rw [List.getD_eq_getElem?_getD, List.getElem?_concat_length]
      rfl
    rcases Nat.lt_or_ge i gs.length with hilt | hige
    · have hgetd : (gs ++ [g]).getD i [] = gs.getD i [] := by
        rw [List.getD_eq_getElem?_getD, List.getD_eq_getElem?_getD,
          List.getElem?_append_left hilt]
      have hvg : v ∉ g := by
        have h0 := hlast gs.length hilt (by simp)
        rwa [hgd] at h0
      have hnone : (g.map (fun w => (w, minString g))).reverse.find?
          (fun p => p.1 = v) = none := by
        rw [List.find?_eq_none]
        intro p hp hpv
        have := gsv_block_find g v p (List.mem_reverse.mp hp) (by simpa using hpv)
        exact hvg this.1
      rw [hnone]
      rw [hgetd] at hv ⊢
      refine ih v i hilt hv ?_
      intro j hij hjlt
      have h0 := hlast j hij (by simp; omega)
      have heq : (gs ++ [g]).getD j [] = gs.getD j [] := by
        rw [List.getD_eq_getElem?_getD, List.getD_eq_getElem?_getD,
          List.getElem?_append_left hjlt]
      rwa [heq] at h0
    · have hieq : i = gs.length := by
        simp only [List.length_append, List.length_cons, List.length_nil] at hi
        omega
      subst hieq
      rw [hgd] at hv ⊢
      have hsome : ∃ p, (g.map (fun w => (w, minString g))).reverse.find?
          (fun p => p.1 = v) = some p := by
        rw [← Option.isSome_iff_exists, List.find?_isSome]
        exact ⟨(v, minString g),
          by rw [List.mem_reverse]; exact List.mem_map.mpr ⟨v, hv, rfl⟩, by simp⟩
      obtain ⟨p, hp⟩ := hsome
      rw [hp]
      have hmem := List.mem_reverse.mp (List.mem_of_find?_eq_some hp)
      have hpv : p.1 = v := by simpa using List.find?_some hp
      exact (gsv_block_find g v p hmem hpv).2

/-- C5 (amended): `group_similar_vendors` is greedy first-match
clustering — processing names in input order, a name joins the
earliest-created group containing any member whose token-set fuzzy
ratio against it meets the threshold, and otherwise opens a new
singleton group — and after all names are processed every name maps to
the lexicographically smallest member of the **last** group containing
it (a name that belongs to a single group therefore maps to that
group's smallest member; the counterexample shows a name can belong to
two groups). -/
theorem c5_amended_greedy_first_match :
    (∀ (θ : ℤ) (groups : List (List String)) (v : String),
      gsvStep θ groups v =
        match groups.findIdx? (fun g => g.any (fun m => θ ≤ Fuzz.tokenSetRatio v m)) with
        | some i => groups.set i (setAdd (groups.getD i []) v)
        | none => groups ++ [[v]]) ∧
    (∀ (names : List String) (θ : ℤ) (v : String) (i : Nat),
      i < (gsvGroups names θ).length → v ∈ (gsvGroups names θ).getD i [] →
      (∀ j, i < j → j < (gsvGroups names θ).length →
        v ∉ (gsvGroups names θ).getD j []) →
      dictGetD (groupSimilarVendors names θ) v v =
        minString ((gsvGroups names θ).getD i [])) := by
  constructor
  · intro θ groups v
    unfold gsvStep
    rw [gsvScan_eq]
    cases groups.findIdx? (fun g => g.any (fun m => θ ≤ Fuzz.tokenSetRatio v m)) with
    | none => rfl
    | some i => rfl
  · intro names θ v i hi hv hlast
    exact gsv_map_last_group (gsvGroups names θ) v i hi hv hlast

/-- Witness for the amended C5 at a concrete input. -/
theorem c5_amended_greedy_first_match_witness :
    gsvStep 90 [["b"]] "b" = [["b"]] ∧
    dictGetD (groupSimilarVendors ["b"] 90) "b" "b" =
      minString ((gsvGroups ["b"] 90).getD 0 []) := by
  constructor
  · rw [c5_amended_greedy_first_match.1 90 [["b"]] "b"]
    decide
  · refine c5_amended_greedy_first_match.2 ["b"] 90 "b" 0 (by decide) (by decide)
      (fun j hj hjlt => ?_)
    have hlen : (gsvGroups ["b"] 90).length = 1 := by decide
    omega

/-- The TF-IDF cosine is symmetric in its two token lists. -/
theorem tfidf_cosineCore_comm (t1 t2 : List String) :
    Tfidf.cosineCore t2 t1 = Tfidf.cosineCore t1 t2 := by
  simp only [Tfidf.cosineCore]
  have hV : (t2 ++ t1).toFinset = (t1 ++ t2).toFinset := by
    simp [List.toFinset_append, Finset.union_comm]
  rw [hV]
  have hdot : ((t1 ++ t2).toFinset.sum fun t => (t2.count t : ℚ) * (t1.count t : ℚ))
      = (t1 ++ t2).toFinset.sum fun t => (t1.count t : ℚ) * (t2.count t : ℚ) :=
    Finset.sum_congr rfl (fun t _ => mul_comm _ _)
  rw [hdot]
  rw [mul_comm
    ((∑ x ∈ (t1 ++ t2).toFinset,
        if (List.count x t1 : ℚ) ≠ 0 then (List.count x t2 : ℚ) ^ 2 else 0) +
      (∑ x ∈ (t1 ++ t2).toFinset,
        if (List.count x t1 : ℚ) = 0 then (List.count x t2 : ℚ) ^ 2 else 0) *
        Tfidf.w2Approx)
    ((∑ x ∈ (t1 ++ t2).toFinset,
        if (List.count x t2 : ℚ) ≠ 0 then (List.count x t1 : ℚ) ^ 2 else 0) +
      (∑ x ∈ (t1 ++ t2).toFinset,
        if (List.count x t2 : ℚ) = 0 then (List.count x t1 : ℚ) ^ 2 else 0) *
        Tfidf.w2Approx)]

/-- `TfidfVectorizer` + `cosine_similarity` is symmetric in the two
texts. -/
theorem tfidf_similarity_comm (a b : String) :
    Tfidf.similarity b a = Tfidf.similarity a b := by
  simp only [Tfidf.similarity]
  rw [Bool.and_comm]
  split
  · rfl
  · rw [tfidf_cosineCore_comm]

/-- The word-overlap fallback comparison is symmetric. -/
theorem fallbackSim_comm (a b : String) : fallbackSim b a = fallbackSim a b := by
  simp only [fallbackSim]
  rw [Finset.union_comm, Finset.inter_comm]

/-- The deployed layout comparison is symmetric: swapping the two
layouts swaps nothing in the result of `are_layouts_similar`. -/
theorem areLayoutsSimilar_comm (headers1 headers2 : List String)
    (scanned1 scanned2 : Option String)
    (tableSize1 tableSize2 : Option (List (String × Int)))
    (handwritten1 handwritten2 : Option String) :
    areLayoutsSimilar headers2 headers1 scanned2 scanned1 tableSize2 tableSize1
        handwritten2 handwritten1 =
      areLayoutsSimilar headers1 headers2 scanned1 scanned2 tableSize1 tableSize2
        handwritten1 handwritten2 := by
  simp only [areLayoutsSimilar]
  split_ifs with h1 h2 h3 h4 h5 h6 h7 h8 <;> try rfl
  all_goals try (exfalso; simp_all [Bool.and_comm, Bool.or_comm, eq_comm])
  all_goals try (rw [tfidf_similarity_comm]; split; rfl; rw [fallbackSim_comm])

set_option maxRecDepth 100000 in
/-- C9 (counterexample): fingerprint similarity is **not** symmetric.
The two strings below are actual structural fingerprints, and
`layout_similarity` (the `SequenceMatcher` ratio) gives `7/17` in one
order and `4/17` in the other: difflib's greedy longest-match
recursion finds a different total of matching characters depending on
argument order. -/
theorem c9_counterexample_similarity_asymmetric :
    structuralFingerprint ["A"] (some "") size2x3 (some "typed")
      = "::a::2x3::typed" ∧
    structuralFingerprint ["Qty"] (some "") none none
      = "::qty::?x?::unknown" ∧
    layoutSimilarity "::a::2x3::typed" "::qty::?x?::unknown" ≠
      layoutSimilarity "::qty::?x?::unknown" "::a::2x3::typed" :=
  ⟨rfl, rfl, by decide⟩

/-- C9 (amended): the deployed pairwise comparison
`are_layouts_similar` is symmetric — swapping the two layouts yields
the same boolean and the same score — but the signature-string
similarity `layout_similarity` is not symmetric on all pairs of
signature strings. -/
theorem c9_amended_deployed_comparison_symmetric :
    (∀ (headers1 headers2 : List String) (scanned1 scanned2 : Option String)
        (tableSize1 tableSize2 : Option (List (String × Int)))
        (handwritten1 handwritten2 : Option String),
      areLayoutsSimilar headers2 headers1 scanned2 scanned1 tableSize2 tableSize1
          handwritten2 handwritten1 =
        areLayoutsSimilar headers1 headers2 scanned1 scanned2 tableSize1 tableSize2
          handwritten1 handwritten2) ∧
    (∃ a b : String, layoutSimilarity a b ≠ layoutSimilarity b a) :=
  ⟨areLayoutsSimilar_comm, "::a::2x3::typed", "::qty::?x?::unknown",
    by set_option maxRecDepth 100000 in decide⟩

/-!
## Theory of the `SequenceMatcher` ratio

Lemmas establishing, for the amended C4: the ratio lies in `[0,1]`;
`ratio = 1` forces the two sequences to be equal; and `ratio(a,a) = 1`
for sequences below the autojunk threshold (length < 200).
-/

namespace SeqMatcher

/-- Membership in the occurrence list of `c` in `b`. -/
theorem occurrences_mem {b : List Char} {c : Char} {j : Nat} :
    j ∈ occurrences b c ↔ j < b.length ∧ b.getD j (Char.ofNat 0) = c := by
  unfold occurrences
  simp only [List.mem_map, List.mem_filter]
  constructor
  · rintro ⟨p, ⟨hp, hc⟩, rfl⟩
    have h1 : p.1 < b.length := List.fst_lt_of_mem_enum hp
    have h2 : b.get? p.1 = some p.2 := List.mem_enum_iff_get?.mp hp
    refine ⟨h1, ?_⟩
    have : b.getD p.1 (Char.ofNat 0) = p.2 := by
      rw [List.getD_eq_getElem?_getD, ← List.get?_eq_getElem?, h2]
      rfl
    rw [this]
    exact of_decide_eq_true hc
  · rintro ⟨h1, h2⟩
    refine ⟨(j, b.getD j (Char.ofNat 0)), ⟨?_, decide_eq_true h2⟩, rfl⟩
    rw [List.mem_enum_iff_get?]
    rw [List.get?_eq_getElem?, List.getElem?_eq_getElem h1]
    rw [List.getD_eq_getElem?_getD, List.getElem?_eq_getElem h1]
    rfl

/-- The occurrence list is strictly ascending. -/
theorem occurrences_sorted (b : List Char) (c : Char) :
    List.Pairwise (· < ·) (occurrences b c) := by
  unfold occurrences
  rw [List.pairwise_map]
  refine List.Pairwise.filter _ ?_
  have h := List.pairwise_lt_range b.length
  rw [← List.enum_map_fst b, List.pairwise_map] at h
  exact h

/-- Membership in `b2j` (after autojunk). -/
theorem b2j_mem {b : List Char} {c : Char} {j : Nat} (h : j ∈ b2j b c) :
    j < b.length ∧ b.getD j (Char.ofNat 0) = c := by
  unfold b2j at h
  split at h
  · simp at h
  · exact occurrences_mem.mp h

/-- The `b2j` list is strictly ascending. -/
theorem b2j_sorted (b : List Char) (c : Char) :
    List.Pairwise (· < ·) (b2j b c) := by
  unfold b2j
  split
  · simp
  · exact occurrences_sorted b c

/-- A nonzero `j2len` lookup comes from an entry of the row. -/
theorem j2lenGet_mem {m : List (Nat × Nat)} {j : Nat} (h : j2lenGet m j ≠ 0) :
    (j, j2lenGet m j) ∈ m := by
  unfold j2lenGet at *
  cases hf : m.find? (fun p => p.1 = j) with
  | none => rw [hf] at h; simp at h
  | some p =>
    have hm := List.mem_of_find?_eq_some hf
    have hp : p.1 = j := by have := List.find?_some hf; exact of_decide_eq_true this
    have : (j, p.2) = p := by rw [← hp]
    show (j, p.2) ∈ m
    rw [this]
    exact hm

/-- Width bound on a `j2len` lookup in a good row. -/
theorem j2lenGet_bound {blo R : Nat} {m : List (Nat × Nat)} (hm : GoodRow blo R m)
    (j : Nat) : j2lenGet m j = 0 ∨ (j2lenGet m j + blo ≤ j + 1 ∧ j2lenGet m j ≤ R) := by
  by_cases h : j2lenGet m j = 0
  · exact Or.inl h
  · exact Or.inr (hm _ (j2lenGet_mem h))

end SeqMatcher

namespace SeqMatcher

/-- The inner loop of `find_longest_match` preserves the row and best
invariants: starting from a width-bounded, valid partial row and a good
best block, it produces a width-bounded, valid row and a good best
block. -/
theorem innerLoop_good (a b : List Char) (alo ahi blo bhi i R : Nat)
    (hR : alo + R = i) (hi2 : i < ahi) :
    ∀ (js : List Nat) (st : Best) (new prev : List (Nat × Nat)),
    (∀ j ∈ js, j < b.length ∧ b.getD j (Char.ofNat 0) = a.getD i (Char.ofNat 0)) →
    GoodRow blo R prev → ValidRow a b (i - 1) prev →
    GoodBest a b alo ahi blo bhi st →
    GoodRow blo (R + 1) new → ValidRow a b i new →
    GoodBest a b alo ahi blo bhi (innerLoop i blo bhi prev js st new).1 ∧
      GoodRow blo (R + 1) (innerLoop i blo bhi prev js st new).2 ∧
      ValidRow a b i (innerLoop i blo bhi prev js st new).2 := by
  intro js
  induction js with
  | nil =>
    intro st new prev _ _ _ hst hnew hvnew
    exact ⟨hst, hnew, hvnew⟩
  | cons j js ih =>
    intro st new prev hjs hrow hvrow hst hnew hvnew
    by_cases h1 : j < blo
    · rw [innerLoop, if_pos h1]
      exact ih st new prev (fun x hx => hjs x (List.mem_cons_of_mem _ hx))
        hrow hvrow hst hnew hvnew
    by_cases h2 : bhi ≤ j
    · rw [innerLoop, if_neg h1, if_pos h2]
      exact ⟨hst, hnew, hvnew⟩
    have hbj : b.getD j (Char.ofNat 0) = a.getD i (Char.ofNat 0) :=
      (hjs j (List.mem_cons_self _ _)).2
    -- facts about the new entry value
    have hk1 : (if j = 0 then 0 else j2lenGet prev (j - 1)) + 1 + blo ≤ j + 1 := by
      by_cases hj0 : j = 0
      · rw [if_pos hj0]; omega
      · rw [if_neg hj0]
        rcases j2lenGet_bound hrow (j - 1) with hz | ⟨hb, _⟩
        · rw [hz]; omega
        · omega
    have hk2 : (if j = 0 then 0 else j2lenGet prev (j - 1)) + 1 ≤ R + 1 := by
      by_cases hj0 : j = 0
      · rw [if_pos hj0]; omega
      · rw [if_neg hj0]
        rcases j2lenGet_bound hrow (j - 1) with hz | ⟨_, hb⟩
        · rw [hz]; omega
        · omega
    have hkv : ∀ d < (if j = 0 then 0 else j2lenGet prev (j - 1)) + 1,
        a.getD (i - d) (Char.ofNat 0) = b.getD (j - d) (Char.ofNat 0) := by
      intro d hd
      cases d with
      | zero => simpa using hbj.symm
      | succ d' =>
        by_cases hj0 : j = 0
        · rw [if_pos hj0] at hd; omega
        · rw [if_neg hj0] at hd
          have hv : j2lenGet prev (j - 1) ≠ 0 := by omega
          have hmem := j2lenGet_mem hv
          have := hvrow _ hmem d' (by omega)
          have e1 : i - (d' + 1) = i - 1 - d' := by omega
          have e2 : j - (d' + 1) = j - 1 - d' := by omega
          rw [e1, e2]
          exact this
    revert hk1 hk2 hkv
    rw [innerLoop, if_neg h1, if_neg h2]
    simp only []
    generalize (if j = 0 then 0 else j2lenGet prev (j - 1)) + 1 = k
    intro hk1 hk2 hkv
    refine ih _ _ prev (fun x hx => hjs x (List.mem_cons_of_mem _ hx)) hrow hvrow ?_ ?_ ?_
    · -- the updated best block is good
      split
      · next hlt =>
        have hki : k ≤ i + 1 := by omega
        refine ⟨show alo ≤ i + 1 - k by omega, show i + 1 - k + k ≤ ahi by omega,
          show blo ≤ j + 1 - k by omega, show j + 1 - k + k ≤ bhi by omega, ?_⟩
        intro d hd
        have hd' : d < k := hd
        show a.getD (i + 1 - k + d) (Char.ofNat 0) = b.getD (j + 1 - k + d) (Char.ofNat 0)
        have e1 : i + 1 - k + d = i - (k - 1 - d) := by omega
        have e2 : j + 1 - k + d = j - (k - 1 - d) := by omega
        rw [e1, e2]
        exact hkv _ (by omega)
      · exact hst
    · -- the extended row is width-bounded
      intro p hp
      rcases List.mem_append.mp hp with hp | hp
      · exact hnew p hp
      · have : p = (j, k) := by simpa using hp
        subst this
        exact ⟨hk1, hk2⟩
    · -- the extended row is valid
      intro p hp
      rcases List.mem_append.mp hp with hp | hp
      · exact hvnew p hp
      · have : p = (j, k) := by simpa using hp
        subst this
        exact hkv

end SeqMatcher

namespace SeqMatcher

/-- The outer row loop of `find_longest_match` preserves the best-block
invariant. -/
theorem rowLoop_good (a b : List Char) (alo ahi blo bhi : Nat) :
    ∀ (m i0 : Nat) (st : Best) (prev : List (Nat × Nat)),
    alo ≤ i0 → i0 + m ≤ ahi →
    GoodRow blo (i0 - alo) prev → ValidRow a b (i0 - 1) prev →
    GoodBest a b alo ahi blo bhi st →
    GoodBest a b alo ahi blo bhi
      (rowLoop a b blo bhi (List.range' i0 m) (st, prev)) := by
  intro m
  induction m with
  | zero =>
    intro i0 st prev _ _ _ _ hst
    exact hst
  | succ m ih =>
    intro i0 st prev h1 h2 hrow hvrow hst
    rw [List.range'_succ i0 m 1, rowLoop]
    have hjs : ∀ j ∈ b2j b (a.getD i0 (Char.ofNat 0)), j < b.length ∧
        b.getD j (Char.ofNat 0) = a.getD i0 (Char.ofNat 0) := fun j hj => b2j_mem hj
    have hinner := innerLoop_good a b alo ahi blo bhi i0 (i0 - alo)
      (by omega) (by omega) (b2j b (a.getD i0 (Char.ofNat 0))) st [] prev
      hjs hrow hvrow hst (by intro p hp; simp at hp) (by intro p hp; simp at hp)
    have e : i0 - alo + 1 = i0 + 1 - alo := by omega
    rw [e] at hinner
    have e2 : i0 - 1 + 1 = i0 ∨ i0 = 0 := by omega
    exact ih (i0 + 1) _ _ (by omega) (by omega) hinner.2.1
      (by
        have : i0 + 1 - 1 = i0 := by omega
        rw [this]
        exact hinner.2.2) hinner.1

/-- The backward extension loops preserve the block invariant. -/
theorem extendLower_good (a b : List Char) (alo blo : Nat) (wantJunk : Bool)
    (ahi bhi : Nat) :
    ∀ (bi bj bs : Nat),
    GoodTriple a b alo ahi blo bhi (bi, bj, bs) →
    GoodTriple a b alo ahi blo bhi (extendLower a b alo blo wantJunk bi bj bs) := by
  intro bi
  induction bi with
  | zero =>
    intro bj bs h
    exact h
  | succ bi ih =>
    intro bj bs h
    rw [extendLower]
    split
    · next hc =>
      simp only [Bool.and_eq_true, decide_eq_true_eq] at hc
      obtain ⟨⟨⟨hlo, hblo⟩, _⟩, hch⟩ := hc
      obtain ⟨g1, g2, g3, g4, g5⟩ := h
      have G2 : bi + 1 + bs ≤ ahi := g2
      have G4 : bj + bs ≤ bhi := g4
      have G5 : ∀ d < bs, a.getD (bi + 1 + d) (Char.ofNat 0) =
          b.getD (bj + d) (Char.ofNat 0) := g5
      refine ih (bj - 1) (bs + 1) ⟨show alo ≤ bi by omega,
        show bi + (bs + 1) ≤ ahi by omega, show blo ≤ bj - 1 by omega,
        show bj - 1 + (bs + 1) ≤ bhi by omega, ?_⟩
      intro d hd
      have hd' : d < bs + 1 := hd
      show a.getD (bi + d) (Char.ofNat 0) = b.getD (bj - 1 + d) (Char.ofNat 0)
      cases d with
      | zero => simpa using hch
      | succ d' =>
        have e1 : bi + (d' + 1) = bi + 1 + d' := by omega
        have e2 : bj - 1 + (d' + 1) = bj + d' := by omega
        rw [e1, e2]
        exact G5 d' (by omega)
    · exact h

/-- The forward extension loops preserve the block invariant. -/
theorem extendUpper_good (a b : List Char) (ahi bhi : Nat) (wantJunk : Bool)
    (alo blo bi bj : Nat) :
    ∀ (fuel bs : Nat),
    GoodTriple a b alo ahi blo bhi (bi, bj, bs) →
    GoodTriple a b alo ahi blo bhi (bi, bj, extendUpper a b ahi bhi wantJunk bi bj fuel bs) := by
  intro fuel
  induction fuel with
  | zero =>
    intro bs h
    exact h
  | succ fuel ih =>
    intro bs h
    rw [extendUpper]
    split
    · next hc =>
      simp only [Bool.and_eq_true, decide_eq_true_eq] at hc
      obtain ⟨⟨⟨hai, hbi⟩, _⟩, hch⟩ := hc
      obtain ⟨g1, g2, g3, g4, g5⟩ := h
      have G1 : alo ≤ bi := g1
      have G3 : blo ≤ bj := g3
      have G5 : ∀ d < bs, a.getD (bi + d) (Char.ofNat 0) =
          b.getD (bj + d) (Char.ofNat 0) := g5
      refine ih (bs + 1) ⟨show alo ≤ bi by omega, show bi + (bs + 1) ≤ ahi by omega,
        show blo ≤ bj by omega, show bj + (bs + 1) ≤ bhi by omega, ?_⟩
      intro d hd
      have hd' : d < bs + 1 := hd
      show a.getD (bi + d) (Char.ofNat 0) = b.getD (bj + d) (Char.ofNat 0)
      by_cases hde : d = bs
      · subst hde
        exact hch
      · exact G5 d (by omega)
    · exact h

/-- `find_longest_match` returns a block inside the rectangle whose
characters match pairwise. -/
theorem findLongestMatch_good (a b : List Char) (alo ahi blo bhi : Nat)
    (h1 : alo ≤ ahi) (h2 : blo ≤ bhi) :
    GoodTriple a b alo ahi blo bhi (findLongestMatch a b alo ahi blo bhi) := by
  unfold findLongestMatch
  simp only []
  have hst : GoodBest a b alo ahi blo bhi
      (rowLoop a b blo bhi (List.range' alo (ahi - alo)) (⟨alo, blo, 0⟩, [])) := by
    refine rowLoop_good a b alo ahi blo bhi (ahi - alo) alo ⟨alo, blo, 0⟩ []
      (le_refl alo) (by omega) (by intro p hp; simp at hp) (by intro p hp; simp at hp) ?_
    exact ⟨le_refl alo, show alo + 0 ≤ ahi by omega, le_refl blo,
      show blo + 0 ≤ bhi by omega, fun d hd => absurd hd (Nat.not_lt_zero d)⟩
  set st := rowLoop a b blo bhi (List.range' alo (ahi - alo)) (⟨alo, blo, 0⟩, []) with hstdef
  have hr1 := extendLower_good a b alo blo false ahi bhi st.besti st.bestj st.bestsize hst
  set r1 := extendLower a b alo blo false st.besti st.bestj st.bestsize with hr1def
  have hs2 := extendUpper_good a b ahi bhi false alo blo r1.1 r1.2.1 ahi r1.2.2 (by
    have : (r1.1, r1.2.1, r1.2.2) = r1 := rfl
    rw [this]
    exact hr1)
  set s2 := extendUpper a b ahi bhi false r1.1 r1.2.1 ahi r1.2.2 with hs2def
  have hr3 := extendLower_good a b alo blo true ahi bhi r1.1 r1.2.1 s2 hs2
  set r3 := extendLower a b alo blo true r1.1 r1.2.1 s2 with hr3def
  have hs4 := extendUpper_good a b ahi bhi true alo blo r3.1 r3.2.1 ahi r3.2.2 (by
    have : (r3.1, r3.2.1, r3.2.2) = r3 := rfl
    rw [this]
    exact hr3)
  exact hs4

end SeqMatcher

namespace SeqMatcher

/-- The total matched size inside a rectangle is at most each of the
two side lengths. -/
theorem matchesIn_le (a b : List Char) :
    ∀ (fuel alo ahi blo bhi : Nat), alo ≤ ahi → blo ≤ bhi →
    matchesIn a b fuel alo ahi blo bhi ≤ ahi - alo ∧
      matchesIn a b fuel alo ahi blo bhi ≤ bhi - blo := by
  intro fuel
  induction fuel with
  | zero =>
    intro alo ahi blo bhi _ _
    exact ⟨Nat.zero_le _, Nat.zero_le _⟩
  | succ fuel ih =>
    intro alo ahi blo bhi h1 h2
    rw [matchesIn]
    split
    · exact ⟨Nat.zero_le _, Nat.zero_le _⟩
    · obtain ⟨g1, g2, g3, g4, _⟩ := findLongestMatch_good a b alo ahi blo bhi h1 h2
      have ihl := ih alo (findLongestMatch a b alo ahi blo bhi).1 blo
        (findLongestMatch a b alo ahi blo bhi).2.1 g1 g3
      have ihr := ih ((findLongestMatch a b alo ahi blo bhi).1 +
          (findLongestMatch a b alo ahi blo bhi).2.2) ahi
        ((findLongestMatch a b alo ahi blo bhi).2.1 +
          (findLongestMatch a b alo ahi blo bhi).2.2) bhi (by omega) (by omega)
      exact ⟨by omega, by omega⟩

/-- The total matched size is at most either length. -/
theorem matchTotal_le (a b : List Char) :
    matchTotal a b ≤ a.length ∧ matchTotal a b ≤ b.length := by
  unfold matchTotal
  have := matchesIn_le a b (a.length + b.length + 1) 0 a.length 0 b.length
    (Nat.zero_le _) (Nat.zero_le _)
  omega

/-- The `SequenceMatcher` ratio lies in `[0, 1]`. -/
theorem ratioQ_mem_unit (a b : List Char) :
    0 ≤ ratioQ a b ∧ ratioQ a b ≤ 1 := by
  unfold ratioQ
  split
  · norm_num
  · next hT =>
    have hM := matchTotal_le a b
    have hpos : (0 : ℚ) < (a.length : ℚ) + (b.length : ℚ) := by
      have : 0 < a.length + b.length := Nat.pos_of_ne_zero hT
      exact_mod_cast this
    constructor
    · positivity
    · rw [div_le_one hpos]
      have : 2 * matchTotal a b ≤ a.length + b.length := by omega
      exact_mod_cast this

/-- If the matched total inside a rectangle equals both side lengths,
the two slices agree pointwise (and the side lengths agree). -/
theorem matchesIn_full (a b : List Char) :
    ∀ (fuel alo ahi blo bhi : Nat), alo ≤ ahi → blo ≤ bhi →
    matchesIn a b fuel alo ahi blo bhi = ahi - alo →
    matchesIn a b fuel alo ahi blo bhi = bhi - blo →
    ahi - alo = bhi - blo ∧
      ∀ d < ahi - alo, a.getD (alo + d) (Char.ofNat 0) = b.getD (blo + d) (Char.ofNat 0) := by
  intro fuel
  induction fuel with
  | zero =>
    intro alo ahi blo bhi _ _ ha hb
    rw [matchesIn] at ha hb
    refine ⟨by omega, ?_⟩
    intro d hd
    omega
  | succ fuel ih =>
    intro alo ahi blo bhi h1 h2 ha hb
    rw [matchesIn] at ha hb
    by_cases hz : (findLongestMatch a b alo ahi blo bhi).2.2 = 0
    · rw [if_pos hz] at ha hb
      refine ⟨by omega, ?_⟩
      intro d hd
      omega
    rw [if_neg hz] at ha hb
    obtain ⟨g1, g2, g3, g4, g5⟩ := findLongestMatch_good a b alo ahi blo bhi h1 h2
    set fi := (findLongestMatch a b alo ahi blo bhi).1 with hfi
    set fj := (findLongestMatch a b alo ahi blo bhi).2.1 with hfj
    set fk := (findLongestMatch a b alo ahi blo bhi).2.2 with hfk
    have hLl := matchesIn_le a b fuel alo fi blo fj g1 g3
    have hRl := matchesIn_le a b fuel (fi + fk) ahi (fj + fk) bhi (by omega) (by omega)
    -- the left and right sub-totals are forced to be full
    have hLa : matchesIn a b fuel alo fi blo fj = fi - alo := by omega
    have hLb : matchesIn a b fuel alo fi blo fj = fj - blo := by omega
    have hRa : matchesIn a b fuel (fi + fk) ahi (fj + fk) bhi = ahi - (fi + fk) := by omega
    have hRb : matchesIn a b fuel (fi + fk) ahi (fj + fk) bhi = bhi - (fj + fk) := by omega
    obtain ⟨hLw, hLeq⟩ := ih alo fi blo fj g1 g3 hLa hLb
    obtain ⟨hRw, hReq⟩ := ih (fi + fk) ahi (fj + fk) bhi (by omega) (by omega) hRa hRb
    refine ⟨by omega, ?_⟩
    intro d hd
    by_cases hc1 : d < fi - alo
    · exact hLeq d hc1
    by_cases hc2 : d < fi - alo + fk
    · have e1 : alo + d = fi + (d - (fi - alo)) := by omega
      have e2 : blo + d = fj + (d - (fi - alo)) := by omega
      rw [e1, e2]
      exact g5 _ (by omega)
    · have e1 : alo + d = fi + fk + (d - (fi - alo) - fk) := by omega
      have e2 : blo + d = fj + fk + (d - (fi - alo) - fk) := by omega
      rw [e1, e2]
      exact hReq _ (by omega)

/-- A full matched total forces the two sequences to be equal. -/
theorem matchTotal_full (a b : List Char)
    (ha : matchTotal a b = a.length) (hb : matchTotal a b = b.length) : a = b := by
  unfold matchTotal at ha hb
  obtain ⟨hw, heq⟩ := matchesIn_full a b (a.length + b.length + 1) 0 a.length 0 b.length
    (Nat.zero_le _) (Nat.zero_le _) (by omega) (by omega)
  have hlen : a.length = b.length := by omega
  refine List.ext_getElem hlen ?_
  intro i hia hib
  have := heq i (by omega)
  rw [List.getD_eq_getElem?_getD, List.getD_eq_getElem?_getD] at this
  rw [show 0 + i = i from Nat.zero_add i] at this
  rw [List.getElem?_eq_getElem hia, List.getElem?_eq_getElem hib] at this
  simpa using this

/-- `ratio = 1` forces the two sequences to be equal. -/
theorem ratioQ_eq_one_imp (a b : List Char) (h : ratioQ a b = 1) : a = b := by
  unfold ratioQ at h
  split at h
  · next hT =>
    have ha : a = [] := List.eq_nil_of_length_eq_zero (by omega)
    have hb : b = [] := List.eq_nil_of_length_eq_zero (by omega)
    rw [ha, hb]
  · next hT =>
    have hpos : ((a.length : ℚ) + (b.length : ℚ)) ≠ 0 := by
      have h0 : 0 < a.length + b.length := Nat.pos_of_ne_zero hT
      have : (0 : ℚ) < (a.length : ℚ) + (b.length : ℚ) := by exact_mod_cast h0
      exact ne_of_gt this
    rw [div_eq_one_iff_eq hpos] at h
    have h2 : 2 * matchTotal a b = a.length + b.length := by exact_mod_cast h
    have hM := matchTotal_le a b
    exact matchTotal_full a b (by omega) (by omega)

end SeqMatcher

namespace SeqMatcher

/-- Below 200 characters the autojunk heuristic never fires. -/
theorem isPopular_of_short {b : List Char} (h : b.length < 200) (c : Char) :
    isPopular b c = false := by
  unfold isPopular
  have : ¬ (200 ≤ b.length) := by omega
  simp [this]

/-- Below 200 characters `b2j` is the plain occurrence list. -/
theorem b2j_of_short {b : List Char} (h : b.length < 200) (c : Char) :
    b2j b c = occurrences b c := by
  unfold b2j
  rw [isPopular_of_short h c]
  simp

/-- `find?` skips a prefix on which the predicate fails. -/
theorem find?_append_of_forall_not {α : Type} (p : α → Bool) (l2 : List α) :
    ∀ l1 : List α, (∀ x ∈ l1, ¬ p x = true) →
    List.find? p (l1 ++ l2) = List.find? p l2 := by
  intro l1
  induction l1 with
  | nil => intro _; rfl
  | cons x l1 ih =>
    intro h
    rw [List.cons_append, List.find?_cons_of_neg, ih]
    · exact fun y hy => h y (List.mem_cons_of_mem _ hy)
    · exact h x (List.mem_cons_self _ _)

/-- Skip phase of the diagonal argument: cells strictly left of the
diagonal have value at most `R`, so with the best block already at
size `R` none of them updates it. -/
theorem innerLoop_refl_skip (a : List Char) (R : Nat) (hR : R < a.length)
    (prev : List (Nat × Nat))
    (hprev : ∀ p ∈ prev, p.2 ≤ p.1 + 1 ∧ p.2 ≤ R) :
    ∀ (js rest : List Nat) (new : List (Nat × Nat)),
    (∀ j ∈ js, j < R) →
    ∃ ents, innerLoop R 0 a.length prev (js ++ rest) ⟨0, 0, R⟩ new =
        innerLoop R 0 a.length prev rest ⟨0, 0, R⟩ (new ++ ents) ∧
      ∀ p ∈ ents, p.1 < R ∧ p.2 ≤ p.1 + 1 ∧ p.2 ≤ R + 1 := by
  intro js
  induction js with
  | nil =>
    intro rest new _
    exact ⟨[], by rw [List.nil_append, List.append_nil], fun p hp => absurd hp (by simp)⟩
  | cons j js ih =>
    intro rest new hlt
    have hjR : j < R := hlt j (List.mem_cons_self _ _)
    have hkb : (if j = 0 then 0 else j2lenGet prev (j - 1)) + 1 ≤ j + 1 ∧
        (if j = 0 then 0 else j2lenGet prev (j - 1)) + 1 ≤ R := by
      by_cases hj0 : j = 0
      · rw [if_pos hj0]
        omega
      · rw [if_neg hj0]
        by_cases hz : j2lenGet prev (j - 1) = 0
        · rw [hz]; omega
        · have hm := hprev _ (j2lenGet_mem hz)
          omega
    rw [List.cons_append, innerLoop, if_neg (by omega : ¬ j < 0),
      if_neg (by omega : ¬ a.length ≤ j)]
    simp only []
    have hnoup : ¬ ((⟨0, 0, R⟩ : Best).bestsize <
        (if j = 0 then 0 else j2lenGet prev (j - 1)) + 1) := by
      show ¬ (R < (if j = 0 then 0 else j2lenGet prev (j - 1)) + 1)
      omega
    rw [if_neg hnoup]
    obtain ⟨ents, he, hb⟩ := ih rest
      (new ++ [(j, (if j = 0 then 0 else j2lenGet prev (j - 1)) + 1)])
      (fun x hx => hlt x (List.mem_cons_of_mem _ hx))
    refine ⟨(j, (if j = 0 then 0 else j2lenGet prev (j - 1)) + 1) :: ents, ?_, ?_⟩
    · rw [he, List.append_assoc]
      rfl
    · intro p hp
      rcases List.mem_cons.mp hp with hp | hp
      · subst hp
        exact ⟨hjR, by omega, by omega⟩
      · exact hb p hp

/-- Tail phase of the diagonal argument: once the best block has size
`R + 1`, no cell of the current row can beat it. -/
theorem innerLoop_refl_tail (a : List Char) (R : Nat)
    (prev : List (Nat × Nat))
    (hprev : ∀ p ∈ prev, p.2 ≤ p.1 + 1 ∧ p.2 ≤ R) :
    ∀ (js : List Nat) (new : List (Nat × Nat)),
    ∃ ents, innerLoop R 0 a.length prev js ⟨0, 0, R + 1⟩ new =
        (⟨0, 0, R + 1⟩, new ++ ents) ∧
      ∀ p ∈ ents, p.2 ≤ p.1 + 1 ∧ p.2 ≤ R + 1 := by
  intro js
  induction js with
  | nil =>
    intro new
    exact ⟨[], by rw [List.append_nil]; rfl, fun p hp => absurd hp (by simp)⟩
  | cons j js ih =>
    intro new
    have hkb : (if j = 0 then 0 else j2lenGet prev (j - 1)) + 1 ≤ j + 1 ∧
        (if j = 0 then 0 else j2lenGet prev (j - 1)) + 1 ≤ R + 1 := by
      by_cases hj0 : j = 0
      · rw [if_pos hj0]
        omega
      · rw [if_neg hj0]
        by_cases hz : j2lenGet prev (j - 1) = 0
        · rw [hz]; omega
        · have hm := hprev _ (j2lenGet_mem hz)
          omega
    rw [innerLoop, if_neg (by omega : ¬ j < 0)]
    by_cases hbhi : a.length ≤ j
    · rw [if_pos hbhi]
      exact ⟨[], by rw [List.append_nil], fun p hp => absurd hp (by simp)⟩
    · rw [if_neg hbhi]
      simp only []
      have hnoup : ¬ ((⟨0, 0, R + 1⟩ : Best).bestsize <
          (if j = 0 then 0 else j2lenGet prev (j - 1)) + 1) := by
        show ¬ (R + 1 < (if j = 0 then 0 else j2lenGet prev (j - 1)) + 1)
        omega
      rw [if_neg hnoup]
      obtain ⟨ents, he, hb⟩ := ih
        (new ++ [(j, (if j = 0 then 0 else j2lenGet prev (j - 1)) + 1)])
      refine ⟨(j, (if j = 0 then 0 else j2lenGet prev (j - 1)) + 1) :: ents, ?_, ?_⟩
      · rw [he, List.append_assoc]
        rfl
      · intro p hp
        rcases List.mem_cons.mp hp with hp | hp
        · subst hp
          exact ⟨by omega, by omega⟩
        · exact hb p hp

end SeqMatcher

namespace SeqMatcher

/-- One reflexive row: processing row `R` of `a` against itself (no
junk) ends with the best block `(0, 0, R+1)` and a row map whose
diagonal entry carries the full value `R + 1`. -/
theorem innerLoop_refl (a : List Char) (hshort : a.length < 200) (R : Nat)
    (hR : R < a.length) (prev : List (Nat × Nat)) (hprev : ReflPrev R prev) :
    ∃ m, innerLoop R 0 a.length prev (b2j a (a.getD R (Char.ofNat 0))) ⟨0, 0, R⟩ [] =
        (⟨0, 0, R + 1⟩, m) ∧ ReflPrev (R + 1) m := by
  obtain ⟨hbnd, hdiag⟩ := hprev
  have hmem : R ∈ b2j a (a.getD R (Char.ofNat 0)) := by
    rw [b2j_of_short hshort]
    exact occurrences_mem.mpr ⟨hR, rfl⟩
  obtain ⟨pre, post, hsplit⟩ := List.append_of_mem hmem
  have hsorted := b2j_sorted a (a.getD R (Char.ofNat 0))
  rw [hsplit] at hsorted
  rw [List.pairwise_append] at hsorted
  obtain ⟨hpre, hmid, hcross⟩ := hsorted
  have hprelt : ∀ x ∈ pre, x < R := fun x hx => hcross x hx R (List.mem_cons_self _ _)
  rw [hsplit]
  obtain ⟨ents1, he1, hb1⟩ := innerLoop_refl_skip a R hR prev hbnd pre (R :: post) [] hprelt
  rw [he1, List.nil_append]
  -- the diagonal cell
  have hkdiag : (if R = 0 then 0 else j2lenGet prev (R - 1)) + 1 = R + 1 := by
    by_cases hR0 : R = 0
    · rw [if_pos hR0, hR0]
    · rw [if_neg hR0, hdiag (by omega)]
  rw [innerLoop, if_neg (by omega : ¬ R < 0), if_neg (by omega : ¬ a.length ≤ R)]
  simp only []
  rw [hkdiag]
  have hup : ((⟨0, 0, R⟩ : Best).bestsize < R + 1) := by
    show R < R + 1
    omega
  rw [if_pos hup]
  have hbest : (⟨R + 1 - (R + 1), R + 1 - (R + 1), R + 1⟩ : Best) = ⟨0, 0, R + 1⟩ := by
    have e : R + 1 - (R + 1) = 0 := by omega
    rw [e]
  rw [hbest]
  obtain ⟨ents2, he2, hb2⟩ := innerLoop_refl_tail a R prev hbnd post (ents1 ++ [(R, R + 1)])
  rw [he2]
  refine ⟨ents1 ++ [(R, R + 1)] ++ ents2, rfl, ?_, ?_⟩
  · intro p hp
    rcases List.mem_append.mp hp with hp | hp
    · rcases List.mem_append.mp hp with hp | hp
      · have := hb1 p hp
        omega
      · have : p = (R, R + 1) := by simpa using hp
        subst this
        omega
    · exact hb2 p hp
  · intro _
    have e : R + 1 - 1 = R := by omega
    rw [e]
    unfold j2lenGet
    rw [List.append_assoc, find?_append_of_forall_not _ _ ents1
      (fun x hx => by
        have := (hb1 x hx).1
        simp only [decide_eq_true_eq]
        omega)]
    rw [List.cons_append, List.find?_cons_of_pos _ (by simp)]

/-- The reflexive row loop keeps the best block on the diagonal and
grows it by one per row. -/
theorem rowLoop_refl (a : List Char) (hshort : a.length < 200) :
    ∀ (m R : Nat) (prev : List (Nat × Nat)), R + m = a.length → ReflPrev R prev →
    rowLoop a a 0 a.length (List.range' R m) (⟨0, 0, R⟩, prev) =
      ⟨0, 0, a.length⟩ := by
  intro m
  induction m with
  | zero =>
    intro R prev hRm _
    have : R = a.length := by omega
    rw [List.range', rowLoop, this]
  | succ m ih =>
    intro R prev hRm hprev
    rw [List.range'_succ R m 1, rowLoop]
    obtain ⟨mp, he, hinv⟩ := innerLoop_refl a hshort R (by omega) prev hprev
    rw [he]
    exact ih (R + 1) mp (by omega) hinv

/-- The forward extension loop does nothing once the block reaches the
upper bound. -/
theorem extendUpper_stuck (a b : List Char) (ahi bhi : Nat) (wj : Bool)
    (bi bj bs : Nat) (h : ahi ≤ bi + bs) :
    ∀ fuel, extendUpper a b ahi bhi wj bi bj fuel bs = bs := by
  intro fuel
  cases fuel with
  | zero => rfl
  | succ fuel =>
    rw [extendUpper]
    have hc : decide (bi + bs < ahi) = false := decide_eq_false (by omega)
    simp [hc]

/-- On a short sequence matched against itself, `find_longest_match`
returns the full diagonal. -/
theorem findLongestMatch_refl (a : List Char) (hshort : a.length < 200) :
    findLongestMatch a a 0 a.length 0 a.length = (0, 0, a.length) := by
  unfold findLongestMatch
  have hrl := rowLoop_refl a hshort a.length 0 [] (by omega)
    ⟨fun p hp => absurd hp (by simp), by omega⟩
  simp only [Nat.sub_zero] at hrl ⊢
  rw [hrl]
  show (let r1 := extendLower a a 0 0 false (0 : Nat) (0 : Nat) a.length
    let s2 := extendUpper a a a.length a.length false r1.1 r1.2.1 a.length r1.2.2
    let r3 := extendLower a a 0 0 true r1.1 r1.2.1 s2
    let s4 := extendUpper a a a.length a.length true r3.1 r3.2.1 a.length r3.2.2
    (r3.1, r3.2.1, s4)) = (0, 0, a.length)
  rw [show extendLower a a 0 0 false (0 : Nat) (0 : Nat) a.length = (0, 0, a.length) from rfl]
  simp only []
  rw [extendUpper_stuck a a a.length a.length false 0 0 a.length (by omega)]
  rw [show extendLower a a 0 0 true (0 : Nat) (0 : Nat) a.length = (0, 0, a.length) from rfl]
  simp only []
  rw [extendUpper_stuck a a a.length a.length true 0 0 a.length (by omega)]

/-- The matched total of a short sequence against itself is its
length. -/
theorem matchTotal_refl (a : List Char) (hshort : a.length < 200) :
    matchTotal a a = a.length := by
  unfold matchTotal
  rw [matchesIn, findLongestMatch_refl a hshort]
  by_cases hn : a.length = 0
  · simp [hn]
  · rw [if_neg (by simpa using hn)]
    show matchesIn a a (a.length + a.length) 0 0 0 0 + a.length +
      matchesIn a a (a.length + a.length) (0 + a.length) a.length
        (0 + a.length) a.length = a.length
    have hl := matchesIn_le a a (a.length + a.length) 0 0 0 0 (le_refl 0) (le_refl 0)
    have hr := matchesIn_le a a (a.length + a.length)
      (0 + a.length) a.length (0 + a.length) a.length (by omega) (by omega)
    omega

/-- The `SequenceMatcher` ratio of a short sequence with itself is 1. -/
theorem ratioQ_refl (a : List Char) (hshort : a.length < 200) :
    ratioQ a a = 1 := by
  unfold ratioQ
  by_cases hn : a.length + a.length = 0
  · rw [if_pos hn]
  · rw [if_neg hn, matchTotal_refl a hshort]
    have hpos : ((a.length : ℚ) + (a.length : ℚ)) ≠ 0 := by
      have h0 : 0 < a.length + a.length := Nat.pos_of_ne_zero hn
      have : (0 : ℚ) < (a.length : ℚ) + (a.length : ℚ) := by exact_mod_cast h0
      exact ne_of_gt this
    rw [div_eq_one_iff_eq hpos]
    ring

end SeqMatcher

/-- C4 (counterexample): the deployed `are_layouts_similar` does not
compute the `SequenceMatcher` ratio of the two structural
fingerprints.  With empty header lists and identical categories the
deployed function returns score `0.0` (empty-headers branch, line 59),
while the two fingerprints are the identical string
`"typed::typed::?x?::typed"`, whose `layout_similarity` is `1`. -/
theorem c4_counterexample_deployed_score_differs :
    areLayoutsSimilar [] [] (some "typed") (some "typed") none none
      (some "typed") (some "typed") = (false, 0) ∧
    structuralFingerprint [] (some "typed") none (some "typed")
      = "typed::typed::?x?::typed" ∧
    layoutSimilarity "typed::typed::?x?::typed" "typed::typed::?x?::typed" = 1 ∧
    ((false, (0 : ℚ)).2 ≠ (1 : ℚ)) := by
  refine ⟨by decide, rfl, ?_, by decide⟩
  exact SeqMatcher.ratioQ_refl _ (by decide)

/-- C4 (amended): `layout_similarity` is a genuine Ratcliff/Obershelp
similarity — it lies in `[0,1]`, value `1` forces the signatures to be
identical, and identical signatures shorter than 200 characters (below
difflib's autojunk threshold) score exactly `1` — but the deployed
decision function `are_layouts_similar` does not compute it: there are
inputs on which its score differs from the `SequenceMatcher` ratio of
the two structural fingerprints. -/
theorem c4_amended_ratio_properties_deployed_differs :
    (∀ f1 f2 : String, 0 ≤ layoutSimilarity f1 f2 ∧ layoutSimilarity f1 f2 ≤ 1) ∧
    (∀ f1 f2 : String, layoutSimilarity f1 f2 = 1 → f1 = f2) ∧
    (∀ f : String, f.length < 200 → layoutSimilarity f f = 1) ∧
    (∃ (headers1 headers2 : List String) (scanned1 scanned2 : Option String)
        (size1 size2 : Option (List (String × Int))) (hw1 hw2 : Option String),
      (areLayoutsSimilar headers1 headers2 scanned1 scanned2 size1 size2
          hw1 hw2).2 ≠
        layoutSimilarity (structuralFingerprint headers1 scanned1 size1 hw1)
          (structuralFingerprint headers2 scanned2 size2 hw2)) := by
  refine ⟨?_, ?_, ?_, ?_⟩
  · intro f1 f2
    exact SeqMatcher.ratioQ_mem_unit f1.data f2.data
  · intro f1 f2 h
    have := SeqMatcher.ratioQ_eq_one_imp f1.data f2.data h
    exact String.ext this
  · intro f hf
    exact SeqMatcher.ratioQ_refl f.data hf
  · refine ⟨[], [], some "typed", some "typed", none, none, some "typed",
      some "typed", ?_⟩
    have h1 : (areLayoutsSimilar [] [] (some "typed") (some "typed") none none
        (some "typed") (some "typed")).2 = 0 := by decide
    have h2 : layoutSimilarity (structuralFingerprint [] (some "typed") none (some "typed"))
        (structuralFingerprint [] (some "typed") none (some "typed")) = 1 :=
      SeqMatcher.ratioQ_refl _ (by decide)
    rw [h1, h2]
    decide

/-- Witness for the amended C4 at concrete inputs. -/
theorem c4_amended_ratio_properties_deployed_differs_witness :
    ("ab" : String) = "ab" ∧ layoutSimilarity "a" "a" = 1 :=
  ⟨c4_amended_ratio_properties_deployed_differs.2.1 "ab" "ab" (by decide),
    c4_amended_ratio_properties_deployed_differs.2.2.1 "a" (by decide)⟩
